import Mathlib

/-!
Verification of the context6 indexing/retrieval/evaluation core.

The Python sources under `src/context6` are shallowly embedded:
pure functions become Lean functions, the SQLite `entities` table becomes a
`List Row`, SQL queries become list filters/sorts, and fallible code returns
`Except`.  Machine floats (the BM25 score) are modelled as `ℚ` — only their
ordering matters to the code under verification.  Python/SQLite character
classes (`\w`, `\s`, `str.lower`, `LIKE` case folding) are modelled at ASCII
precision, which is the precision at which the repository exercises them.
-/

namespace Context6

/-! ## Ordering infrastructure

Python's `sorted`/`list.sort` on key tuples and SQL `ORDER BY` are modelled by
`List.insertionSort` (a stable sort, like CPython's) over a strict boolean
comparator lifted through a key function.  The order-theoretic facts about the
comparators are proved in the theorem part of this file. -/

/-- Non-strict ordering on `α` induced by a strict boolean comparator on keys
computed by `k`. -/
def relOfB [DecidableEq κ] (lt : κ → κ → Bool) (k : α → κ) (a b : α) : Prop :=
  (lt (k a) (k b) || decide (k a = k b)) = true

instance [DecidableEq κ] (lt : κ → κ → Bool) (k : α → κ) : DecidableRel (relOfB lt k) :=
  fun _ _ => instDecidableEqBool _ _

/-- Stable sort by a key, the model of Python `sorted(xs, key=k)` and of SQL
`ORDER BY` on the key columns. -/
def sortBy [DecidableEq κ] (lt : κ → κ → Bool) (k : α → κ) (l : List α) : List α :=
  l.insertionSort (relOfB lt k)

/-- A comparator that behaves as a strict linear order up to key equality. -/
def IsLinCmp (lt : κ → κ → Bool) : Prop :=
  (∀ a, lt a a = false) ∧
  (∀ a b c, lt a b = true → lt b c = true → lt a c = true) ∧
  (∀ a b, a ≠ b → lt a b = true ∨ lt b a = true)

def natLtB (a b : Nat) : Bool := decide (a < b)

def intLtB (a b : Int) : Bool := decide (a < b)

def ratLtB (a b : ℚ) : Bool := decide (a < b)

/-- Code-point comparison of character lists (Python string `<`, SQLite BINARY
collation). -/
def listCharLt : List Char → List Char → Bool
  | _, [] => false
  | [], _ :: _ => true
  | a :: as, b :: bs => decide (a < b) || (decide (a = b) && listCharLt as bs)

def strLtB (a b : String) : Bool := listCharLt a.data b.data

/-- Lexicographic combination of two strict comparators. -/
def lexLtB [DecidableEq α] (la : α → α → Bool) (lb : β → β → Bool) :
    α × β → α × β → Bool :=
  fun p q => la p.1 q.1 || (decide (p.1 = q.1) && lb p.2 q.2)

/-- SQL `LIMIT n` (a negative `n` means "no limit" in SQLite). -/
def sqliteLimit (n : Int) (l : List α) : List α :=
  if n < 0 then l else l.take n.toNat

/-- Python slicing `l[:n]` (a negative `n` counts from the end). -/
def pySliceTo (n : Int) (l : List α) : List α :=
  if 0 ≤ n then l.take n.toNat else l.take ((l.length : Int) + n).toNat

/-- First-occurrence de-duplication with an explicit "seen" accumulator,
the model of SQL `UNION` row de-duplication and of the Python
`seen : set` / `out : list` idiom. -/
def dedupFirstAux [DecidableEq α] (seen : List α) : List α → List α
  | [] => []
  | x :: xs =>
    if x ∈ seen then dedupFirstAux seen xs else x :: dedupFirstAux (x :: seen) xs

def dedupFirst [DecidableEq α] (l : List α) : List α := dedupFirstAux [] l

/-! ## String primitives (Python / SQLite semantics, ASCII precision) -/

/-- Python `\s` / `str.strip` whitespace (ASCII range). -/
def pyIsSpace (c : Char) : Bool :=
  c = ' ' || c = '\t' || c = '\n' || c = '\r' || c = '\x0b' || c = '\x0c'

def stripL (l : List Char) : List Char :=
  ((l.dropWhile pyIsSpace).reverse.dropWhile pyIsSpace).reverse

/-- Python `str.strip()`. -/
def pyStrip (s : String) : String := ⟨stripL s.data⟩

/-- ASCII lower-casing of one character (SQLite `LIKE` folding, and the model
of Python `str.lower` on the ASCII identifiers this repository indexes). -/
def asciiLower (c : Char) : Char :=
  if 'A' ≤ c ∧ c ≤ 'Z' then Char.ofNat (c.toNat + 32) else c

/-- Python `str.lower()` (ASCII model). -/
def pyLower (s : String) : String := ⟨s.data.map asciiLower⟩

/-- Does `hay` start with `needle`? (Python `str.startswith`.) -/
def startsWithL : List Char → List Char → Bool
  | _, [] => true
  | [], _ :: _ => false
  | h :: hs, n :: ns => decide (h = n) && startsWithL hs ns

/-- Does `hay` contain `needle` as a contiguous substring? -/
def containsSubL (needle : List Char) : List Char → Bool
  | [] => needle.isEmpty
  | h :: hs => startsWithL (h :: hs) needle || containsSubL needle hs

/-- Python `needle in hay` on strings. -/
def containsSub (hay needle : String) : Bool := containsSubL needle.data hay.data

/-- Python `c in hay` for a single character. -/
def containsChar (c : Char) (s : String) : Bool := s.data.contains c

/-- Everything of `hay` before the first occurrence of `needle`
(`hay.split(needle, 1)[0]`); the whole of `hay` when `needle` is absent. -/
def takeUntilSub (needle : List Char) : List Char → List Char
  | [] => []
  | h :: hs => if startsWithL (h :: hs) needle then [] else h :: takeUntilSub needle hs

/-- Split at every separator character selected by `p`, keeping empty pieces
(Python `str.split(sep)` shape). -/
def splitOnPred (p : Char → Bool) : List Char → List (List Char)
  | [] => [[]]
  | c :: cs =>
    let r := splitOnPred p cs
    if p c then [] :: r
    else
      match r with
      | [] => [[c]]
      | g :: gs => (c :: g) :: gs

def splitOnChar (sep : Char) (l : List Char) : List (List Char) :=
  splitOnPred (fun c => decide (c = sep)) l

/-- Python `s.rsplit(".", 1)[-1]`: the text after the last dot, or the whole
string when it has no dot. -/
def lastSegment (s : String) : String :=
  ⟨(s.data.reverse.takeWhile (fun c => decide (c ≠ '.'))).reverse⟩

/-- Does `f` accept some suffix of the text? (The expansion of a `%`
wildcard.) -/
def likeAny (f : List Char → Bool) : List Char → Bool
  | [] => f []
  | t :: ts => f (t :: ts) || likeAny f ts

/-- SQLite `LIKE` matching: `%` matches any run, `_` matches one character,
ordinary characters compare ASCII case-insensitively. -/
def likeMatchL : List Char → List Char → Bool
  | [], ts => ts.isEmpty
  | '%' :: ps, ts => likeAny (likeMatchL ps) ts
  | '_' :: ps, ts =>
    match ts with
    | [] => false
    | _ :: ts2 => likeMatchL ps ts2
  | p :: ps, ts =>
    match ts with
    | [] => false
    | t :: ts2 => decide (asciiLower p = asciiLower t) && likeMatchL ps ts2

def sqlLike (pattern text : String) : Bool := likeMatchL pattern.data text.data

/-! ## Character classes of the regexes in `core/retrieve.py` (ASCII model) -/

def isAsciiUpper (c : Char) : Bool := 'A' ≤ c && c ≤ 'Z'

def isAsciiLowerC (c : Char) : Bool := 'a' ≤ c && c ≤ 'z'

def isAsciiDigit (c : Char) : Bool := '0' ≤ c && c ≤ '9'

/-- `[A-Za-z_]` — the start of a Python identifier. -/
def isIdentStart (c : Char) : Bool := isAsciiUpper c || isAsciiLowerC c || c = '_'

/-- `\w` = `[A-Za-z0-9_]` (ASCII model). -/
def isWordChar (c : Char) : Bool := isIdentStart c || isAsciiDigit c

/-- `[\w.]`. -/
def isModChar (c : Char) : Bool := isWordChar c || c = '.'

/-- Full match of `_IDENT = [A-Za-z_]\w*`. -/
def isIdent (s : String) : Bool :=
  match s.data with
  | [] => false
  | c :: cs => isIdentStart c && cs.all isWordChar

/-- Full match of `_FQNAME_LIKE = ^[A-Za-z0-9_.]+$`. -/
def fqnameLike (s : String) : Bool := !s.data.isEmpty && s.data.all isModChar

/-- Parse a maximal nonempty run of characters selected by `p`; `none` when the
first character does not match. -/
def takeRun1 (p : Char → Bool) (l : List Char) : Option (List Char × List Char) :=
  match l with
  | [] => none
  | c :: cs => if p c then some (c :: cs.takeWhile p, cs.dropWhile p) else none

/-- Parse `[A-Za-z_][\w.]*` by maximal munch (exact for the patterns below,
where the run is always followed by whitespace or the end of the pattern). -/
def takeModuleName (l : List Char) : Option (List Char × List Char) :=
  match l with
  | [] => none
  | c :: cs =>
    if isIdentStart c then some (c :: cs.takeWhile isModChar, cs.dropWhile isModChar)
    else none

/-- Drop the literal word `w`; `none` when `l` does not start with it. -/
def dropLit (w : List Char) (l : List Char) : Option (List Char) :=
  if startsWithL l w then some (l.drop w.length) else none

/-- Match of `re.match(r"^\s*from\s+([A-Za-z_][\w.]*)\s+import\s+(.+?)\s*$", raw)`
on an already-stripped `raw`, returning (module, imported-names text).
Because `raw` is stripped, the trailing `\s*$` forces group 2 to be the whole
remainder, which therefore must be nonempty and must not contain a newline
(`.` does not match `\n`). -/
def matchFromImport (raw : String) : Option (String × String) :=
  let l := raw.data.dropWhile pyIsSpace
  match dropLit "from".data l with
  | none => none
  | some l1 =>
    match takeRun1 pyIsSpace l1 with
    | none => none
    | some (_, l2) =>
      match takeModuleName l2 with
      | none => none
      | some (mod, l3) =>
        match takeRun1 pyIsSpace l3 with
        | none => none
        | some (_, l4) =>
          match dropLit "import".data l4 with
          | none => none
          | some l5 =>
            match takeRun1 pyIsSpace l5 with
            | none => none
            | some (_, rest) =>
              if rest.isEmpty || rest.contains '\n' then none
              else some (⟨mod⟩, ⟨rest⟩)

/-- Match of `re.match(r"^\s*import\s+([A-Za-z_][\w.]*)", raw)` (a prefix
match), returning the module group. -/
def matchImport (raw : String) : Option String :=
  let l := raw.data.dropWhile pyIsSpace
  match dropLit "import".data l with
  | none => none
  | some l1 =>
    match takeRun1 pyIsSpace l1 with
    | none => none
    | some (_, l2) =>
      match takeModuleName l2 with
      | none => none
      | some (mod, _) => some ⟨mod⟩

/-- Full match of `_CODE_LIKE`, first alternative:
`^from\s+[\w.]+\s+import\s+[\w*]+$`. -/
def codeLikeFrom (s : String) : Bool :=
  match dropLit "from".data s.data with
  | none => false
  | some l1 =>
    match takeRun1 pyIsSpace l1 with
    | none => false
    | some (_, l2) =>
      match takeRun1 isModChar l2 with
      | none => false
      | some (_, l3) =>
        match takeRun1 pyIsSpace l3 with
        | none => false
        | some (_, l4) =>
          match dropLit "import".data l4 with
          | none => false
          | some l5 =>
            match takeRun1 pyIsSpace l5 with
            | none => false
            | some (_, l6) =>
              match takeRun1 (fun c => isWordChar c || c = '*') l6 with
              | none => false
              | some (_, l7) => l7.isEmpty

/-- Full match of `_CODE_LIKE`, second alternative: `^import\s+[\w.]+$`. -/
def codeLikeImport (s : String) : Bool :=
  match dropLit "import".data s.data with
  | none => false
  | some l1 =>
    match takeRun1 pyIsSpace l1 with
    | none => false
    | some (_, l2) =>
      match takeRun1 isModChar l2 with
      | none => false
      | some (_, l3) => l3.isEmpty

def codeLike (s : String) : Bool := codeLikeFrom s || codeLikeImport s

/-! ## The `entities` table (db/sqlite.py, schema `SCHEMA`) -/

/-- One row of the `entities` table. -/
structure Row where
  id : Nat
  kind : String
  fqname : String
  file : String
  start_line : Int
  end_line : Int
  signature : String
  docstring : String
  summary : String
  summary_hash : Option String
  code_truncated : Int
  summary_prompt_tokens : Option Int
  summary_coverage : Option String
  summary_backend : Option String
  summary_error : Option String
  code_hash : String
  updated_at : String
deriving DecidableEq, Repr

/-- Row constructor for examples: id, kind, fqname, span; other columns at
their defaults. -/
def mkRow (i : Nat) (kind fq : String) (s e : Int) : Row :=
  ⟨i, kind, fq, "f.py", s, e, "", "", "", none, 0, none, none, none, none, "h", "t"⟩

/-! ## core/retrieve.py — lookup_symbol -/

/-- `_normalize_kinds`: strip entries, drop empties, `None` when nothing is
left. -/
def normalize_kinds (kinds : Option (List String)) : Option (List String) :=
  match kinds with
  | none => none
  | some l =>
    let out := (l.filter (fun k => !(pyStrip k == ""))).map pyStrip
    if out.isEmpty then none else some out

/-- The `kind IN (...)` clause (absent when no kinds remain). -/
def kindOk (kinds : Option (List String)) (r : Row) : Bool :=
  match normalize_kinds kinds with
  | none => true
  | some ks => ks.contains r.kind

/-- The three tier conditions of the `lookup_symbol` SQL: tier 0 is
`fqname = ?` (BINARY equality), tier 1 is `fqname LIKE '%.' || name`, tier 2
is `fqname LIKE '%' || name || '%'`. -/
def tierCond (name : String) (t : Nat) (r : Row) : Bool :=
  match t with
  | 0 => r.fqname == name
  | 1 => sqlLike ("%." ++ name) r.fqname
  | _ => sqlLike ("%" ++ name ++ "%") r.fqname

/-- The `UNION` of the three tier SELECTs: each tier contributes its matching
rows tagged with its `rank` literal, and `UNION` removes duplicate result rows
(a duplicate requires equal `rank` too, so the same entity may appear at
several tiers). -/
def lookupRows (table : List Row) (name : String) (kinds : Option (List String)) :
    List (Row × Nat) :=
  dedupFirst
    (((table.filter (fun r => tierCond name 0 r && kindOk kinds r)).map (fun r => (r, 0))) ++
     ((table.filter (fun r => tierCond name 1 r && kindOk kinds r)).map (fun r => (r, 1))) ++
     ((table.filter (fun r => tierCond name 2 r && kindOk kinds r)).map (fun r => (r, 2))))

/-- `ORDER BY rank, kind, fqname`. -/
def lookupKey (p : Row × Nat) : Nat × String × String := (p.2, p.1.kind, p.1.fqname)

def lookupLt : Nat × String × String → Nat × String × String → Bool :=
  lexLtB natLtB (lexLtB strLtB strLtB)

/-- `lookup_symbol(db, name, limit, kinds)`: the three-tier UNION, ordered by
`(rank, kind, fqname)` and truncated by SQL `LIMIT`. -/
def lookup_symbol (table : List Row) (name : String) (limit : Int)
    (kinds : Option (List String)) : List (Row × Nat) :=
  sqliteLimit limit (sortBy lookupLt lookupKey (lookupRows table name kinds))

/-! ## core/retrieve.py — search -/

/-- `_fts_phrase`: double internal quotes and wrap in quotes. -/
def fts_phrase (q : String) : String :=
  ⟨'"' :: (q.data.flatMap (fun c => if c = '"' then ['"', '"'] else [c])) ++ ['"']⟩

/-- `_normalize_fts_query`. -/
def normalize_fts_query (q : String) : String :=
  let q := pyStrip q
  if fqnameLike q then fts_phrase q
  else if codeLike q ||
      (containsChar '.' q && containsChar ' ' q &&
        (containsSub q "import" || containsSub q "from")) then
    fts_phrase q
  else q

/-- `_fqname_boost(fqname, query)`. -/
def fqname_boost (fqname query : String) : Int :=
  let q := pyLower (pyStrip query)
  let f := pyLower (pyStrip fqname)
  if q == "" || f == "" then 0
  else if q == f then 1000
  else if q == lastSegment f then 600
  else if containsSub f q then 250
  else 0

/-- A candidate row coming back from the FTS engine: entity columns joined
with `bm25(entities_fts)`. -/
structure FtsRow where
  e : Row
  fts_score : ℚ
deriving DecidableEq, Repr

/-- The re-rank key of `search`: `(-boost, fts_score, kind, fqname)`. -/
def searchKey (rawQuery : String) (r : FtsRow) : Int × ℚ × String × String :=
  (-(fqname_boost r.e.fqname rawQuery), r.fts_score, r.e.kind, r.e.fqname)

def searchLt : Int × ℚ × String × String → Int × ℚ × String × String → Bool :=
  lexLtB intLtB (lexLtB ratLtB (lexLtB strLtB strLtB))

/-- The tail of `search`: `sorted(rows, key=...)[:limit]`. -/
def search_rerank (rawQuery : String) (limit : Int) (rows : List FtsRow) :
    List FtsRow :=
  pySliceTo limit (sortBy searchLt (searchKey rawQuery) rows)

/-- The FTS engine boundary: executing the SQL `MATCH` query (with its kind
filter and candidate limit) for one query string; an `OperationalError`
surfaces as `.error` carrying `str(e)`. -/
def QueryEngine : Type := String → Except String (List FtsRow)

/-- The `"fts5: syntax error" in msg` test. -/
def hasFtsSyntaxError (msg : String) : Bool := containsSub msg "fts5: syntax error"

/-- The execute-and-retry block of `search`, instrumented with the list of
query strings sent to the engine (in order). -/
def search_fts (eng : QueryEngine) (rawQuery : String) :
    Except String (List FtsRow) × List String :=
  let q := normalize_fts_query rawQuery
  match eng q with
  | .ok rows => (.ok rows, [q])
  | .error msg =>
    if hasFtsSyntaxError msg then
      let quoted := fts_phrase (pyStrip rawQuery)
      (eng quoted, [q, quoted])
    else (.error msg, [q])

/-- `search(db, query, limit, kinds)`: run the (possibly retried) FTS query,
then re-rank and truncate.  Engine failures propagate as `.error`. -/
def search (eng : QueryEngine) (rawQuery : String) (limit : Int) :
    Except String (List FtsRow) :=
  match (search_fts eng rawQuery).1 with
  | .ok rows => .ok (search_rerank rawQuery limit rows)
  | .error msg => .error msg

/-! ## core/retrieve.py — normalize_resolve_query -/

/-- The `add(v)` closure: strip `v`, skip empties and already-seen values,
otherwise append.  State is (seen, candidates). -/
def addCand (st : List String × List String) (v : String) : List String × List String :=
  let v := pyStrip v
  if v == "" || st.1.contains v then st else (v :: st.1, st.2 ++ [v])

/-- Values passed to `add` by the `from ... import ...` branch. -/
def fromImportEmits (raw : String) : List String :=
  match matchFromImport raw with
  | none => []
  | some (mod, imported) =>
    (splitOnChar ',' imported.data).flatMap (fun part =>
      let sym := pyStrip ⟨takeUntilSub " as ".data (stripL part)⟩
      if isIdent sym then [sym, mod ++ "." ++ sym] else [])

/-- Values passed to `add` by the `import ...` branch. -/
def importEmits (raw : String) : List String :=
  match matchImport raw with
  | none => []
  | some mod => [mod, lastSegment mod]

/-- Values passed to `add` by the dotted-token scan: strip the punctuation
`` ` ( ) [ ] { } : , `` to spaces, split on whitespace, keep tokens containing
a dot. (Replacing each punctuation character by one space splits identically
to replacing maximal punctuation runs, because empty pieces carry no dot.) -/
def isStripPunct (c : Char) : Bool :=
  c = '`' || c = '(' || c = ')' || c = '[' || c = ']' ||
    c = '\x7b' || c = '\x7d' || c = ':' || c = ','

def dottedTokens (raw : String) : List (List Char) :=
  let cleaned := raw.data.map (fun c => if isStripPunct c then ' ' else c)
  (splitOnPred pyIsSpace cleaned).filter (fun t => t.contains '.')

def dottedEmits (raw : String) : List String :=
  (dottedTokens raw).flatMap (fun tok =>
    let parts := (splitOnChar '.' tok).filter (fun p => !p.isEmpty)
    match parts.reverse with
    | [] => []
    | [p] => [⟨tok⟩, ⟨p⟩]
    | p :: q :: _ => [⟨tok⟩, ⟨p⟩, ⟨q⟩ ++ "." ++ ⟨p⟩, ⟨q⟩])

/-- Every value passed to `add`, in program order. -/
def rawEmits (raw : String) : List String :=
  fromImportEmits raw ++ importEmits raw ++ dottedEmits raw ++ [raw] ++
    (if containsChar '.' raw then [lastSegment raw] else [])

structure ResolveOut where
  raw_query : String
  normalized_query : String
  candidates : List String
deriving DecidableEq, Repr

/-- `normalize_resolve_query(query)`. -/
def normalize_resolve_query (query : String) : ResolveOut :=
  let raw := pyStrip query
  if raw == "" then ⟨raw, "", []⟩
  else
    let candidates := ((rawEmits raw).foldl addCand ([], [])).2
    ⟨raw, candidates.headD raw, candidates⟩

/-! ## core/retrieve.py — class_methods -/

/-- Python `ranked[: max(1, limit)]`. -/
def takeMax1 (limit : Int) (l : List α) : List α := l.take (max 1 limit).toNat

/-- The candidate fetch of `class_methods`:
`kind='method' AND fqname LIKE class.% ORDER BY start_line, fqname LIMIT 250`. -/
def cmFetch (table : List Row) (class_fqname : String) : List Row :=
  (sortBy (lexLtB intLtB strLtB) (fun r => (r.start_line, r.fqname))
    (table.filter (fun r =>
      r.kind == "method" && sqlLike (class_fqname ++ ".%") r.fqname))).take 250

/-- `_method_name(fqname)` inside `class_methods`. -/
def methodName (class_fqname fqname : String) : String :=
  if startsWithL fqname.data (class_fqname ++ ".").data then
    ⟨fqname.data.drop (class_fqname.length + 1)⟩
  else lastSegment fqname

def prefer_exact : List String :=
  ["__init__", "from_dict", "as_dict", "to_dict", "from_json", "to_json"]

/-- The `prefer_prefix` tuple of naming-convention starts. -/
def preferStarts : List String :=
  ["from_", "as_", "to_", "get_", "set_", "is_", "has_"]

def cmScore (method : String) : Nat :=
  if prefer_exact.contains method then 0
  else if preferStarts.any (fun p => startsWithL method.data p.data) then 1
  else 5

/-- Ranking key `(score, start_line, method)` of one fetched row, or `none`
when the remaining suffix still contains a dot (not a direct member). -/
def cmEntry (class_fqname : String) (r : Row) : Option ((Nat × Int × String) × Row) :=
  let method := methodName class_fqname r.fqname
  if containsChar '.' method then none
  else some ((cmScore method, r.start_line, method), r)

/-- `class_methods(db, class_fqname, limit)`. -/
def class_methods (table : List Row) (class_fqname : String) (limit : Int) :
    List Row :=
  let ranked := (cmFetch table class_fqname).filterMap (cmEntry class_fqname)
  (takeMax1 limit (sortBy (lexLtB natLtB (lexLtB intLtB strLtB)) Prod.fst ranked)).map
    Prod.snd

/-! ## core/retrieve.py — module_neighbors -/

/-- The candidate fetch of `module_neighbors`:
`file = ? AND kind IN ('class','function','method') ORDER BY start_line, fqname`. -/
def mnFetch (table : List Row) (file : String) : List Row :=
  sortBy (lexLtB intLtB strLtB) (fun r => (r.start_line, r.fqname))
    (table.filter (fun r =>
      r.file == file &&
        (r.kind == "class" || r.kind == "function" || r.kind == "method")))

/-- `_distance(row)`: 0 on overlap/touch, else the gap to the nearer edge. -/
def mnDistance (start_line end_line : Int) (r : Row) : Int :=
  if r.end_line < start_line then start_line - r.end_line
  else if r.start_line > end_line then r.start_line - end_line
  else 0

/-- `kind_rank = {"class": 0, "function": 0, "method": 1}` with default 9. -/
def mnKindRank (kind : String) : Nat :=
  if kind == "class" then 0 else if kind == "function" then 0
  else if kind == "method" then 1 else 9

def mnKey (start_line end_line : Int) (r : Row) : Nat × Int × Int × String :=
  (mnKindRank r.kind, mnDistance start_line end_line r, r.start_line, r.fqname)

/-- The `exclude_id is not None and int(e["id"]) == int(exclude_id)` skip. -/
def mnKeep (exclude_id : Option Nat) (r : Row) : Bool :=
  match exclude_id with
  | none => true
  | some i => !(r.id == i)

/-- `module_neighbors(db, file, start_line, end_line, exclude_id, limit)`. -/
def module_neighbors (table : List Row) (file : String) (start_line end_line : Int)
    (exclude_id : Option Nat) (limit : Int) : List Row :=
  takeMax1 limit
    (sortBy (lexLtB natLtB (lexLtB intLtB (lexLtB intLtB strLtB)))
      (mnKey start_line end_line) ((mnFetch table file).filter (mnKeep exclude_id)))

/-! ## db/sqlite.py — ingest_index

An `Index` entity dict is modelled after Python-side defaulting: the code
reads `e["kind"]`, …, `e.get("signature", "")`, `e.get("docstring", "")` and
passes `COALESCE(e.get("summary",""), '')`, so the string fields below hold
the values that reach the SQL statement. -/

structure EntityIn where
  kind : String
  fqname : String
  file : String
  start_line : Int
  end_line : Int
  signature : String
  docstring : String
  summary : String
  code_hash : String
deriving DecidableEq, Repr

structure RelIn where
  src : String
  rel : String
  dst : String
deriving DecidableEq, Repr

structure IndexData where
  root : String
  entities : List EntityIn
  relations : List RelIn
deriving DecidableEq, Repr

/-- The persistent store: the `entities` and `relations` tables plus the next
rowid to be assigned (the FTS mirror is rebuilt from `entities` and carries no
independent state). -/
structure Store where
  entities : List Row
  relations : List RelIn
  nextId : Nat
deriving DecidableEq, Repr

/-- The `(kind, fqname)` uniqueness key of `ON CONFLICT`. -/
def sameKey (e : EntityIn) (r : Row) : Bool :=
  r.kind == e.kind && r.fqname == e.fqname

/-- The `DO UPDATE SET` arm: overwrite file/span/signature/docstring/code_hash
and `updated_at=datetime('now')`; every other column is untouched. -/
def conflictUpdate (now : String) (e : EntityIn) (r : Row) : Row :=
  { r with
    file := e.file
    start_line := e.start_line
    end_line := e.end_line
    signature := e.signature
    docstring := e.docstring
    code_hash := e.code_hash
    updated_at := now }

/-- A freshly inserted row: summary columns at their schema defaults. -/
def newRow (now : String) (id : Nat) (e : EntityIn) : Row :=
  ⟨id, e.kind, e.fqname, e.file, e.start_line, e.end_line, e.signature,
    e.docstring, e.summary, none, 0, none, none, none, none, e.code_hash, now⟩

/-- One `INSERT ... ON CONFLICT(kind, fqname) DO UPDATE` statement. -/
def upsertEntity (now : String) (st : Store) (e : EntityIn) : Store :=
  if st.entities.any (sameKey e) then
    { st with
      entities := st.entities.map (fun r =>
        if sameKey e r then conflictUpdate now e r else r) }
  else
    { st with
      entities := st.entities ++ [newRow now st.nextId e]
      nextId := st.nextId + 1 }

/-- `ingest_index(db_path, idx)`: replace all relations, then upsert every
entity in order (one transaction; the FTS rebuild mirrors `entities`). -/
def ingest_index (now : String) (st : Store) (idx : IndexData) : Store :=
  idx.entities.foldl (upsertEntity now) { st with relations := idx.relations }

/-! ## core/summarize.py — write_summary_cur -/

/-- The row image of the `UPDATE ... WHERE id=?` statement of
`write_summary_cur`. -/
def summaryUpdate (now : String) (entity_id : Nat) (summary code_hash : String)
    (was_truncated : Bool) (approx_tokens : Int) (coverage summary_backend : String)
    (r : Row) : Row :=
  if r.id == entity_id then
    { r with
      summary := summary
      summary_hash := some code_hash
      code_truncated := if was_truncated then 1 else 0
      summary_prompt_tokens := some approx_tokens
      summary_coverage := some coverage
      summary_backend := some summary_backend
      summary_error := none
      updated_at := now }
  else r

/-- `write_summary_cur(con, entity_id, summary, code_hash, was_truncated,
approx_tokens, coverage, summary_backend)`: validate the backend in Python,
run the `UPDATE ... WHERE id=?`, and raise unless the rowcount is exactly 1.
The `entities` schema additionally constrains
`summary_backend IN ('ollam', 'codex') OR summary_backend IS NULL` (note
`'ollam'`), so an UPDATE that touches at least one row with a backend outside
that set raises `sqlite3.IntegrityError` before the rowcount check — in
particular `"ollama"` passes the Python validation but can never be written;
an UPDATE matching zero rows evaluates no CHECK.  (The raised errors model
the exceptions; transaction rollback is the caller's concern.) -/
def write_summary_cur (now : String) (table : List Row) (entity_id : Nat)
    (summary code_hash : String) (was_truncated : Bool) (approx_tokens : Int)
    (coverage summary_backend : String) : Except String (List Row) :=
  if !(summary_backend == "ollama" || summary_backend == "codex") then
    .error ("Invalid summary_backend: " ++ summary_backend)
  else if (table.filter (fun r => r.id == entity_id)).length != 0 &&
      !(summary_backend == "ollam" || summary_backend == "codex") then
    .error "IntegrityError: CHECK constraint failed: summary_backend"
  else if (table.filter (fun r => r.id == entity_id)).length != 1 then
    .error ("UPDATE rowcount=" ++
      toString (table.filter (fun r => r.id == entity_id)).length ++ " for id=" ++
      toString entity_id)
  else
    .ok (table.map (summaryUpdate now entity_id summary code_hash was_truncated
      approx_tokens coverage summary_backend))

/-! ## core/indexer.py — _signature and the imports scan -/

/-- The `ast.arguments` fields read (or skipped) by `_signature`. -/
structure PyArgs where
  posonlyargs : List String
  args : List String
  vararg : Option String
  kwonlyargs : List String
  kwarg : Option String
deriving DecidableEq, Repr

structure PyFunc where
  name : String
  fargs : PyArgs
deriving DecidableEq, Repr

/-- `_signature(node)`: iterates `node.args.args`, then the vararg, the
keyword-only args and the kwarg.  (`node.args.posonlyargs` is never read.) -/
def py_signature (f : PyFunc) : String :=
  f.name ++ "(" ++
    String.intercalate ", "
      (f.fargs.args ++ (f.fargs.vararg.map (fun v => "*" ++ v)).toList ++
        f.fargs.kwonlyargs ++ (f.fargs.kwarg.map (fun v => "**" ++ v)).toList) ++
    ")"

/-- The composition stated by the specification: ALL positional parameters in
declaration order (positional-only ones included), then the markers. -/
def claimedSignature (f : PyFunc) : String :=
  f.name ++ "(" ++
    String.intercalate ", "
      ((f.fargs.posonlyargs ++ f.fargs.args) ++
        (f.fargs.vararg.map (fun v => "*" ++ v)).toList ++
        f.fargs.kwonlyargs ++ (f.fargs.kwarg.map (fun v => "**" ++ v)).toList) ++
    ")"

/-- The import statements found by `ast.walk`: `import a, b` carries its alias
names (`alias.name`, the full dotted module, `as` ignored); `from m import x`
carries `node.module` (`none` for a bare relative import) and the imported
names (never emitted). -/
inductive PyImportStmt where
  | imp (names : List String)
  | fromImp (module : Option String) (names : List String)
deriving DecidableEq, Repr

/-- The imports loop of `build_index`: one relation appended per `alias` of an
`ast.Import` and per `ast.ImportFrom` with a module. -/
def import_relations (mod_name : String) (stmts : List PyImportStmt) : List RelIn :=
  stmts.flatMap (fun s =>
    match s with
    | .imp names => names.map (fun n => ⟨mod_name, "imports", n⟩)
    | .fromImp (some m) _ => [⟨mod_name, "imports", m⟩]
    | .fromImp none _ => [])

/-- The module names referenced by the statements, with multiplicity. -/
def moduleRefs (stmts : List PyImportStmt) : List String :=
  stmts.flatMap (fun s =>
    match s with
    | .imp names => names
    | .fromImp m _ => m.toList)

/-! ## core/eval.py — evaluate_recall_at_k

A qrels item is modelled after `_normalize_qrels_item`; `relevant_kinds` is
the explicit-kind dictionary.  The selected retriever (`search`/`lookup`) with
its kind filter is abstracted as `retrieve : String → List String`, the fqname
list it returns for a query, and `_fetch_entity_kinds` as
`dbKind : String → Option String`. -/

structure QrelsItem where
  query : String
  relevant : List String
  relevant_kinds : List (String × String)
deriving DecidableEq, Repr

/-- Dictionary lookup in an association list. -/
def assocGet (m : List (String × String)) (key : String) : Option String :=
  (m.find? (fun p => p.1 == key)).map Prod.snd

/-- `explicit_kinds.get(fq) or db_kinds.get(fq)` (Python `or`: an empty or
missing explicit kind falls through to the stored kind). -/
def kindOf (item : QrelsItem) (dbKind : String → Option String) (fq : String) :
    Option String :=
  match assocGet item.relevant_kinds fq with
  | some v => if v == "" then dbKind fq else some v
  | none => dbKind fq

/-- `knd in allowed` (`None in allowed` is false). -/
def kindAllowed (knd : Option String) (ks : List String) : Bool :=
  match knd with
  | some s => ks.contains s
  | none => false

/-- `knd or "unknown"`. -/
def kindOrUnknown (knd : Option String) : String :=
  match knd with
  | some s => if s == "" then "unknown" else s
  | none => "unknown"

/-- Python truthiness of the `kinds` argument (`None` and `()` are falsy). -/
def kindsTruthy (kinds : Option (List String)) : Bool :=
  match kinds with
  | none => false
  | some ks => !ks.isEmpty

structure EvalDetail where
  query : String
  relevant_count : Nat
  eligible_relevant_count : Nat
  retrieved_count : Nat
  matched_count : Nat
  recall_at_k : ℚ
  hit_at_k : ℚ
  matched_fqnames : List String
  excluded_relevant : List (String × String)
deriving DecidableEq, Repr

/-- The relevant set, `set(item["relevant"])`, as a duplicate-free list. -/
def relevantSet (item : QrelsItem) : List String := dedupFirst item.relevant

/-- The eligible relevant fqnames, in the `sorted(relevant)` iteration order of
the source. -/
def eligibleList (dbKind : String → Option String) (kinds : Option (List String))
    (item : QrelsItem) : List String :=
  if kindsTruthy kinds then
    (sortBy strLtB id (relevantSet item)).filter (fun fq =>
      kindAllowed (kindOf item dbKind fq) (kinds.getD []))
  else sortBy strLtB id (relevantSet item)

/-- The excluded relevant fqnames with their reported kinds (empty when the
kind filter is falsy). -/
def excludedList (dbKind : String → Option String) (kinds : Option (List String))
    (item : QrelsItem) : List (String × String) :=
  if kindsTruthy kinds then
    ((sortBy strLtB id (relevantSet item)).filter (fun fq =>
      !kindAllowed (kindOf item dbKind fq) (kinds.getD []))).map (fun fq =>
        (fq, kindOrUnknown (kindOf item dbKind fq)))
  else []

/-- The loop body of `evaluate_recall_at_k` for one qrels item. -/
def evalQuery (dbKind : String → Option String) (retrieve : String → List String)
    (k : Int) (kinds : Option (List String)) (item : QrelsItem) : EvalDetail :=
  let returned := pySliceTo k (retrieve item.query)
  let eligible := eligibleList dbKind kinds item
  let eligible_matched :=
    sortBy strLtB id (eligible.filter (fun fq => returned.contains fq))
  let eligible_relevant_count := eligible.length
  let recallQ : ℚ :=
    if eligible_relevant_count = 0 then 0
    else (eligible_matched.length : ℚ) / (eligible_relevant_count : ℚ)
  let hitQ : ℚ := if eligible_matched.isEmpty then 0 else 1
  ⟨item.query, (relevantSet item).length, eligible_relevant_count,
    returned.length, eligible_matched.length, recallQ, hitQ, eligible_matched,
    excludedList dbKind kinds item⟩

structure EvalOut where
  k : Int
  kinds : Option (List String)
  num_queries : Nat
  recall_at_k : ℚ
  hit_rate_at_k : ℚ
  details : List EvalDetail
  warningsData : List (String × Nat × Nat)
deriving DecidableEq, Repr

/-- `evaluate_recall_at_k(db, qrels, k, retriever, kinds)`.  The per-query
warning strings are abstracted as their data (query, excluded count, relevant
count); formatting is presentation-only. -/
def evaluate_recall_at_k (dbKind : String → Option String)
    (retrieve : String → List String) (k : Int) (kinds : Option (List String))
    (qrels : List QrelsItem) : Except String EvalOut :=
  if k ≤ 0 then .error "k must be > 0"
  else
    let details := qrels.map (evalQuery dbKind retrieve k kinds)
    let n := details.length
    .ok
      ⟨k, if kindsTruthy kinds then kinds else none, n,
        (if n = 0 then 0 else (details.map EvalDetail.recall_at_k).sum / (n : ℚ)),
        (if n = 0 then 0 else (details.map EvalDetail.hit_at_k).sum / (n : ℚ)),
        details,
        qrels.filterMap (fun item =>
          let ex := excludedList dbKind kinds item
          if ex.isEmpty then none
          else some (item.query, ex.length, (relevantSet item).length))⟩

/-- The specification's recall formula:
`|eligible ∩ returned| / |eligible|`, 0 when there are no eligible targets. -/
def recallSpec (eligible returned : Finset String) : ℚ :=
  if eligible.card = 0 then 0
  else ((eligible ∩ returned).card : ℚ) / (eligible.card : ℚ)

/-- The specification's hit formula: 1 exactly when the intersection is
non-empty. -/
def hitSpec (eligible returned : Finset String) : ℚ :=
  if (eligible ∩ returned).card = 0 then 0 else 1

/-! ## Concrete fixtures used by counterexamples and witnesses -/

/-- The tiering example of the specification: `pkg.mod.fn`, `pkg.sub.fn`,
`pkg.fnx`, all functions. -/
def tierTable : List Row :=
  [mkRow 1 "function" "pkg.mod.fn" 1 2, mkRow 2 "function" "pkg.sub.fn" 1 2,
    mkRow 3 "function" "pkg.fnx" 1 2]

def arcRow : Row := mkRow 1 "class" "arc.main.ARC" 1 2

def execRow : Row := mkRow 2 "method" "arc.main.ARC.execute" 1 2

/-- 250 nested-member method rows that fill the `LIMIT 250` candidate pool of
`class_methods` ahead of the one direct member. -/
def poolRow (i : Nat) : Row := mkRow i "method" ("C.X.m" ++ toString i) (i : Int) (i : Int)

def directRow : Row := mkRow 250 "method" "C.good" 9999 9999

def poolTable : List Row := (List.range 250).map poolRow ++ [directRow]

/-- A declaration with one positional-only parameter: `def f(a, /, b)`. -/
def posonlyFunc : PyFunc := ⟨"f", ⟨["a"], ["b"], none, [], none⟩⟩

/-- `import os` followed by `from os import path`. -/
def twiceImported : List PyImportStmt :=
  [.imp ["os"], .fromImp (some "os") ["path"]]

/-- A one-row store for the ingest-conflict witness. -/
def storeW : Store := ⟨[mkRow 1 "class" "a.B" 1 2], [], 5⟩

/-- A scanned entity conflicting with the stored row on `(kind, fqname)`. -/
def entW : EntityIn := ⟨"class", "a.B", "new.py", 10, 20, "sig", "doc", "sum", "ch"⟩

def idxW : IndexData := ⟨"rt", [entW], [⟨"a", "defines", "a.B"⟩]⟩

set_option maxRecDepth 10000

/-! # Theorems -/

/-! ## Ordering facts -/

theorem isLinCmp_natLtB : IsLinCmp natLtB := by
  refine ⟨fun a => by simp [natLtB], fun a b c h1 h2 => ?_, fun a b h => ?_⟩
  · simp only [natLtB, decide_eq_true_eq] at *
    omega
  · simp only [natLtB, decide_eq_true_eq]
    omega

theorem isLinCmp_intLtB : IsLinCmp intLtB := by
  refine ⟨fun a => by simp [intLtB], fun a b c h1 h2 => ?_, fun a b h => ?_⟩
  · simp only [intLtB, decide_eq_true_eq] at *
    omega
  · simp only [intLtB, decide_eq_true_eq]
    omega

theorem isLinCmp_ratLtB : IsLinCmp ratLtB := by
  refine ⟨fun a => by simp [ratLtB], fun a b c h1 h2 => ?_, fun a b h => ?_⟩
  · simp only [ratLtB, decide_eq_true_eq] at *
    exact lt_trans h1 h2
  · simpa [ratLtB] using lt_or_gt_of_ne h

theorem listCharLt_irrefl : ∀ a, listCharLt a a = false
  | [] => rfl
  | c :: cs => by simp [listCharLt, listCharLt_irrefl cs]

theorem listCharLt_trans : ∀ a b c, listCharLt a b = true → listCharLt b c = true →
    listCharLt a c = true
  | _, b, [], _, h2 => by simp [listCharLt] at h2
  | a, [], _ :: _, h1, _ => by simp [listCharLt] at h1
  | [], _ :: _, _ :: _, _, _ => by simp [listCharLt]
  | a :: as, b :: bs, c :: cs, h1, h2 => by
    simp only [listCharLt, Bool.or_eq_true, Bool.and_eq_true, decide_eq_true_eq] at *
    rcases h1 with h1 | ⟨rfl, h1⟩
    · rcases h2 with h2 | ⟨rfl, h2⟩
      · exact Or.inl (lt_trans h1 h2)
      · exact Or.inl h1
    · rcases h2 with h2 | ⟨rfl, h2⟩
      · exact Or.inl h2
      · exact Or.inr ⟨rfl, listCharLt_trans _ _ _ h1 h2⟩

theorem listCharLt_connex : ∀ a b, a ≠ b → listCharLt a b = true ∨ listCharLt b a = true
  | [], [], h => absurd rfl h
  | [], _ :: _, _ => Or.inl rfl
  | _ :: _, [], _ => Or.inr rfl
  | a :: as, b :: bs, h => by
    by_cases hab : a = b
    · subst hab
      have hne : as ≠ bs := fun hh => h (by rw [hh])
      rcases listCharLt_connex as bs hne with h1 | h1 <;>
        simp [listCharLt, h1]
    · rcases lt_or_gt_of_ne hab with h1 | h1 <;> simp [listCharLt, h1]

theorem isLinCmp_strLtB : IsLinCmp strLtB := by
  refine ⟨fun a => listCharLt_irrefl a.data,
    fun a b c => listCharLt_trans a.data b.data c.data, fun a b h => ?_⟩
  exact listCharLt_connex a.data b.data (fun hh => h (by cases a; cases b; simp_all))

theorem isLinCmp_lexLtB [DecidableEq α] {la : α → α → Bool} {lb : β → β → Bool}
    (ha : IsLinCmp la) (hb : IsLinCmp lb) : IsLinCmp (lexLtB la lb) := by
  obtain ⟨hai, hat, hac⟩ := ha
  obtain ⟨hbi, hbt, hbc⟩ := hb
  refine ⟨fun p => by simp [lexLtB, hai, hbi], fun p q r h1 h2 => ?_, fun p q h => ?_⟩
  · simp only [lexLtB, Bool.or_eq_true, Bool.and_eq_true, decide_eq_true_eq] at *
    have asym : ∀ x y, la x y = true → la y x = true → False := fun x y hx hy => by
      have := hat x y x hx hy
      rw [hai] at this
      exact Bool.false_ne_true this
    rcases h1 with h1 | ⟨e1, h1⟩
    · rcases h2 with h2 | ⟨e2, h2⟩
      · exact Or.inl (hat _ _ _ h1 h2)
      · exact Or.inl (e2 ▸ h1)
    · rcases h2 with h2 | ⟨e2, h2⟩
      · exact Or.inl (e1 ▸ h2)
      · exact Or.inr ⟨e1.trans e2, hbt _ _ _ h1 h2⟩
  · by_cases h1 : p.1 = q.1
    · have h2 : p.2 ≠ q.2 := fun hh => h (Prod.ext h1 hh)
      rcases hbc _ _ h2 with hc | hc
      · exact Or.inl (by simp [lexLtB, h1, hc])
      · exact Or.inr (by simp [lexLtB, h1.symm, hc])
    · rcases hac _ _ h1 with hc | hc
      · exact Or.inl (by simp [lexLtB, hc])
      · exact Or.inr (by simp [lexLtB, hc])

theorem isLinCmp_lookupLt : IsLinCmp lookupLt :=
  isLinCmp_lexLtB isLinCmp_natLtB (isLinCmp_lexLtB isLinCmp_strLtB isLinCmp_strLtB)

theorem isLinCmp_searchLt : IsLinCmp searchLt :=
  isLinCmp_lexLtB isLinCmp_intLtB
    (isLinCmp_lexLtB isLinCmp_ratLtB (isLinCmp_lexLtB isLinCmp_strLtB isLinCmp_strLtB))

theorem relOfB_refl [DecidableEq κ] (lt : κ → κ → Bool) (k : α → κ) (a : α) :
    relOfB lt k a a := by simp [relOfB]

theorem relOfB_total [DecidableEq κ] {lt : κ → κ → Bool} (h : IsLinCmp lt)
    (k : α → κ) (a b : α) : relOfB lt k a b ∨ relOfB lt k b a := by
  by_cases he : k a = k b
  · exact Or.inl (by simp [relOfB, he])
  · rcases h.2.2 _ _ he with hc | hc
    · exact Or.inl (by simp [relOfB, hc])
    · exact Or.inr (by simp [relOfB, hc])

theorem relOfB_trans [DecidableEq κ] {lt : κ → κ → Bool} (h : IsLinCmp lt)
    (k : α → κ) (a b c : α) : relOfB lt k a b → relOfB lt k b c → relOfB lt k a c := by
  intro h1 h2
  simp only [relOfB, Bool.or_eq_true, decide_eq_true_eq] at *
  rcases h1 with h1 | h1
  · rcases h2 with h2 | h2
    · exact Or.inl (h.2.1 _ _ _ h1 h2)
    · exact Or.inl (h2 ▸ h1)
  · rcases h2 with h2 | h2
    · exact Or.inl (h1 ▸ h2)
    · exact Or.inr (h1.trans h2)

theorem sortBy_sorted [DecidableEq κ] {lt : κ → κ → Bool} (h : IsLinCmp lt)
    (k : α → κ) (l : List α) : List.Sorted (relOfB lt k) (sortBy lt k l) := by
  haveI : IsTotal α (relOfB lt k) := ⟨relOfB_total h k⟩
  haveI : IsTrans α (relOfB lt k) := ⟨relOfB_trans h k⟩
  exact List.sorted_insertionSort _ l

theorem sortBy_perm [DecidableEq κ] (lt : κ → κ → Bool) (k : α → κ) (l : List α) :
    (sortBy lt k l).Perm l := List.perm_insertionSort _ l

theorem mem_sortBy [DecidableEq κ] (lt : κ → κ → Bool) (k : α → κ) {l : List α}
    {x : α} : x ∈ sortBy lt k l ↔ x ∈ l := List.mem_insertionSort _

theorem length_sortBy [DecidableEq κ] (lt : κ → κ → Bool) (k : α → κ) (l : List α) :
    (sortBy lt k l).length = l.length := List.length_insertionSort _ l

theorem sortBy_head_min [DecidableEq κ] {lt : κ → κ → Bool} (h : IsLinCmp lt)
    (k : α → κ) {l : List α} {x : α} {xs : List α} (hs : sortBy lt k l = x :: xs) :
    ∀ y ∈ l, relOfB lt k x y := by
  intro y hy
  have hsort := sortBy_sorted h k l
  rw [hs] at hsort
  have hmem : y ∈ sortBy lt k l := (mem_sortBy lt k).mpr hy
  rw [hs, List.mem_cons] at hmem
  rcases hmem with rfl | hmem
  · exact relOfB_refl lt k y
  · exact (List.sorted_cons.mp hsort).1 y hmem

theorem sorted_take {r : α → α → Prop} {l : List α} (h : List.Sorted r l) (n : Nat) :
    List.Sorted r (l.take n) := List.Pairwise.sublist (List.take_sublist n l) h

/-! ## De-duplication facts -/

theorem mem_dedupFirstAux [DecidableEq α] (x : α) :
    ∀ (l seen : List α), x ∈ dedupFirstAux seen l ↔ x ∈ l ∧ x ∉ seen := by
  intro l
  induction l with
  | nil => intro seen; simp [dedupFirstAux]
  | cons y ys ih =>
    intro seen
    by_cases hy : y ∈ seen
    · rw [dedupFirstAux, if_pos hy, ih]
      constructor
      · rintro ⟨h1, h2⟩
        exact ⟨List.mem_cons_of_mem _ h1, h2⟩
      · rintro ⟨h1, h2⟩
        rcases List.mem_cons.mp h1 with rfl | h1
        · exact absurd hy h2
        · exact ⟨h1, h2⟩
    · rw [dedupFirstAux, if_neg hy]
      constructor
      · intro h
        rcases List.mem_cons.mp h with rfl | h1
        · exact ⟨List.mem_cons_self _ _, hy⟩
        · have h2 := (ih (y :: seen)).mp h1
          exact ⟨List.mem_cons_of_mem _ h2.1,
            fun hc => h2.2 (List.mem_cons_of_mem _ hc)⟩
      · rintro ⟨h1, h2⟩
        rcases List.mem_cons.mp h1 with rfl | h1
        · exact List.mem_cons_self _ _
        · by_cases hxy : x = y
          · exact hxy ▸ List.mem_cons_self _ _
          · exact List.mem_cons_of_mem _ ((ih (y :: seen)).mpr
              ⟨h1, fun hc => (List.mem_cons.mp hc).elim hxy h2⟩)

theorem nodup_dedupFirstAux [DecidableEq α] :
    ∀ (l seen : List α), (dedupFirstAux seen l).Nodup := by
  intro l
  induction l with
  | nil => intro seen; simp [dedupFirstAux]
  | cons y ys ih =>
    intro seen
    by_cases hy : y ∈ seen
    · rw [dedupFirstAux, if_pos hy]
      exact ih seen
    · rw [dedupFirstAux, if_neg hy]
      refine List.nodup_cons.mpr ⟨fun hc => ?_, ih (y :: seen)⟩
      have := (mem_dedupFirstAux y ys (y :: seen)).mp hc
      exact this.2 (List.mem_cons_self y seen)

theorem mem_dedupFirst [DecidableEq α] {l : List α} {x : α} :
    x ∈ dedupFirst l ↔ x ∈ l := by
  rw [dedupFirst, mem_dedupFirstAux]
  simp

theorem nodup_dedupFirst [DecidableEq α] (l : List α) : (dedupFirst l).Nodup :=
  nodup_dedupFirstAux l []

theorem toFinset_dedupFirst [DecidableEq α] (l : List α) :
    (dedupFirst l).toFinset = l.toFinset := by
  ext x
  simp [mem_dedupFirst]

theorem length_dedupFirst_toFinset [DecidableEq α] (l : List α) :
    (dedupFirst l).length = l.toFinset.card := by
  rw [← toFinset_dedupFirst, List.toFinset_card_of_nodup (nodup_dedupFirst l)]

/-! ## Stripping facts -/

theorem dropWhile_head_false {p : α → Bool} :
    ∀ (l : List α) {c : α} {cs : List α}, l.dropWhile p = c :: cs → p c = false
  | [], c, cs => by simp
  | x :: xs, c, cs => by
    rw [List.dropWhile_cons]
    split_ifs with hx
    · exact dropWhile_head_false xs
    · intro h
      injection h with h1 _
      subst h1
      simpa using hx

theorem dropWhile_idem {p : α → Bool} (l : List α) :
    (l.dropWhile p).dropWhile p = l.dropWhile p := by
  cases h : l.dropWhile p with
  | nil => simp
  | cons c cs => simp [List.dropWhile_cons, dropWhile_head_false l h]

theorem stripL_head_false {l : List Char} {c : Char} {cs : List Char}
    (h : stripL l = c :: cs) : pyIsSpace c = false := by
  have hzl : stripL l = ((l.dropWhile pyIsSpace).reverse.dropWhile pyIsSpace).reverse :=
    rfl
  set y := l.dropWhile pyIsSpace with hy
  set z := y.reverse.dropWhile pyIsSpace with hz
  rw [hzl] at h
  have hzne : z ≠ [] := by
    intro h0
    rw [h0] at h
    simp at h
  have h1 : z.getLast? = some c := by
    rw [← List.head?_reverse, h]
    rfl
  obtain ⟨w, hw⟩ := List.dropWhile_suffix (l := y.reverse) pyIsSpace
  have h2 : y.head? = some c := by
    rw [← List.getLast?_reverse, ← hw, List.getLast?_append_of_ne_nil _ hzne, h1]
  cases hyy : y with
  | nil => rw [hyy] at h2; simp at h2
  | cons d ds =>
    rw [hyy] at h2
    simp only [List.head?_cons, Option.some.injEq] at h2
    exact h2 ▸ dropWhile_head_false l hyy

theorem stripL_dropWhile (l : List Char) :
    (stripL l).dropWhile pyIsSpace = stripL l := by
  cases h : stripL l with
  | nil => simp
  | cons c cs => simp [List.dropWhile_cons, stripL_head_false h]

theorem stripL_reverse_dropWhile (l : List Char) :
    (stripL l).reverse.dropWhile pyIsSpace = (stripL l).reverse := by
  have h : (stripL l).reverse =
      (l.dropWhile pyIsSpace).reverse.dropWhile pyIsSpace := by
    show ((l.dropWhile pyIsSpace).reverse.dropWhile pyIsSpace).reverse.reverse = _
    rw [List.reverse_reverse]
  rw [h, dropWhile_idem]

theorem stripL_idem (l : List Char) : stripL (stripL l) = stripL l := by
  show (((stripL l).dropWhile pyIsSpace).reverse.dropWhile pyIsSpace).reverse = stripL l
  rw [stripL_dropWhile, stripL_reverse_dropWhile, List.reverse_reverse]

theorem pyStrip_idem (s : String) : pyStrip (pyStrip s) = pyStrip s := by
  show (⟨stripL (stripL s.data)⟩ : String) = ⟨stripL s.data⟩
  rw [stripL_idem]

/-! ## The add-fold of normalize_resolve_query -/

theorem foldl_addCand (l : List String) :
    ∀ (seen out : List String),
      (l.foldl addCand (seen, out)).2 =
        out ++ dedupFirstAux seen ((l.map pyStrip).filter (fun v => !(v == ""))) := by
  induction l with
  | nil => intro seen out; simp [dedupFirstAux]
  | cons v vs ih =>
    intro seen out
    rw [List.foldl_cons]
    by_cases h0 : pyStrip v = ""
    · have ha : addCand (seen, out) v = (seen, out) := by
        simp [addCand, h0]
      rw [ha, ih]
      simp [List.filter_cons, h0]
    · by_cases h1 : pyStrip v ∈ seen
      · have ha : addCand (seen, out) v = (seen, out) := by
          simp only [addCand]
          rw [if_pos]
          simp only [Bool.or_eq_true, beq_iff_eq]
          exact Or.inr (by simpa [List.contains, List.elem_iff] using h1)
        rw [ha, ih]
        have : ((v :: vs).map pyStrip).filter (fun v => !(v == "")) =
            pyStrip v :: (vs.map pyStrip).filter (fun v => !(v == "")) := by
          simp [List.filter_cons, h0]
        rw [this, dedupFirstAux, if_pos h1]
      · have ha : addCand (seen, out) v = (pyStrip v :: seen, out ++ [pyStrip v]) := by
          simp only [addCand]
          rw [if_neg]
          simp only [Bool.or_eq_true, beq_iff_eq, not_or]
          exact ⟨h0, by simpa [List.contains, List.elem_iff] using h1⟩
        rw [ha, ih]
        have : ((v :: vs).map pyStrip).filter (fun v => !(v == "")) =
            pyStrip v :: (vs.map pyStrip).filter (fun v => !(v == "")) := by
          simp [List.filter_cons, h0]
        rw [this, dedupFirstAux, if_neg h1]
        simp

/-! ## Upsert tracking (ingest_index) -/

theorem sameKey_conflictUpdate (now : String) (e1 e2 : EntityIn) (r : Row) :
    sameKey e2 (conflictUpdate now e1 r) = sameKey e2 r := rfl

theorem conflictUpdate_conflictUpdate (now now' : String) (e1 e2 : EntityIn) (r : Row) :
    conflictUpdate now' e2 (conflictUpdate now e1 r) = conflictUpdate now' e2 r := rfl

theorem mem_upsert_update {now : String} {st : Store} {e : EntityIn} {r : Row}
    (hr : r ∈ st.entities) (hk : sameKey e r = true) :
    conflictUpdate now e r ∈ (upsertEntity now st e).entities := by
  rw [upsertEntity, if_pos (List.any_eq_true.mpr ⟨r, hr, hk⟩)]
  have := List.mem_map_of_mem
    (f := fun r => if sameKey e r then conflictUpdate now e r else r) hr
  simpa [hk] using this

theorem mem_upsert_frame {now : String} {st : Store} {e : EntityIn} {r : Row}
    (hr : r ∈ st.entities) (hk : sameKey e r = false) :
    r ∈ (upsertEntity now st e).entities := by
  rw [upsertEntity]
  split_ifs with h
  · have := List.mem_map_of_mem
      (f := fun r => if sameKey e r then conflictUpdate now e r else r) hr
    simpa [hk] using this
  · exact List.mem_append_left _ hr

theorem foldl_upsert_tracks (now : String) :
    ∀ (es : List EntityIn) (st : Store) (r : Row), r ∈ st.entities →
      ∀ eL, (es.filter (fun e => sameKey e r)).getLast? = some eL →
        conflictUpdate now eL r ∈ (es.foldl (upsertEntity now) st).entities := by
  intro es
  induction es with
  | nil => intro st r _ eL h; simp at h
  | cons e es ih =>
    intro st r hr eL hL
    rw [List.foldl_cons]
    by_cases hk : sameKey e r = true
    · have hfc : (e :: es).filter (fun e2 => sameKey e2 r) =
          e :: es.filter (fun e2 => sameKey e2 r) := by
        simp [List.filter_cons, hk]
      rw [hfc] at hL
      have hr' : conflictUpdate now e r ∈ (upsertEntity now st e).entities :=
        mem_upsert_update hr hk
      cases hes : (es.filter (fun e2 => sameKey e2 r)).getLast? with
      | none =>
        have hnil : es.filter (fun e2 => sameKey e2 r) = [] :=
          List.getLast?_eq_none_iff.mp hes
        rw [hnil, List.getLast?_singleton] at hL
        injection hL with hL
        subst hL
        -- eL = e; no later entity matches the key, so the updated row survives
        have hrest : ∀ (es' : List EntityIn) (st' : Store) (r' : Row),
            r' ∈ st'.entities →
            es'.filter (fun e2 => sameKey e2 r') = [] →
            r' ∈ (es'.foldl (upsertEntity now) st').entities := by
          intro es'
          induction es' with
          | nil => intro st' r' h _; simpa using h
          | cons e2 es2 ih2 =>
            intro st' r' h hflt
            rw [List.foldl_cons]
            rw [List.filter_cons] at hflt
            by_cases hk2 : sameKey e2 r' = true
            · simp [hk2] at hflt
            · have hk2f : sameKey e2 r' = false := by
                cases h2 : sameKey e2 r' with
                | false => rfl
                | true => exact absurd h2 hk2
              refine ih2 _ _ (mem_upsert_frame h hk2f) ?_
              simpa [hk2f] using hflt
        refine hrest es _ _ hr' ?_
        calc es.filter (fun e2 => sameKey e2 (conflictUpdate now e r))
            = es.filter (fun e2 => sameKey e2 r) := by
              apply List.filter_congr
              intro e2 _
              rw [sameKey_conflictUpdate]
          _ = [] := hnil
      | some eM =>
        have hLM : eL = eM := by
          cases hf : es.filter (fun e2 => sameKey e2 r) with
          | nil => rw [hf] at hes; simp at hes
          | cons b bs =>
            rw [hf] at hes hL
            rw [List.getLast?_cons_cons] at hL
            rw [hes] at hL
            injection hL with h
            exact h.symm
        subst hLM
        have heq : conflictUpdate now eL r =
            conflictUpdate now eL (conflictUpdate now e r) :=
          (conflictUpdate_conflictUpdate now now e eL r).symm
        rw [heq]
        refine ih (upsertEntity now st e) (conflictUpdate now e r)
          (mem_upsert_update hr hk) eL ?_
        have hfe : es.filter (fun e2 => sameKey e2 (conflictUpdate now e r)) =
            es.filter (fun e2 => sameKey e2 r) := by
          apply List.filter_congr
          intro e2 _
          rw [sameKey_conflictUpdate]
        rw [hfe, hes]
    · have hkf : sameKey e r = false := by
        cases h2 : sameKey e r with
        | false => rfl
        | true => exact absurd h2 hk
      have hfc : (e :: es).filter (fun e2 => sameKey e2 r) =
          es.filter (fun e2 => sameKey e2 r) := by
        simp [List.filter_cons, hkf]
      rw [hfc] at hL
      exact ih _ _ (mem_upsert_frame hr hkf) eL hL

theorem foldl_upsert_relations (now : String) :
    ∀ (es : List EntityIn) (st : Store),
      (es.foldl (upsertEntity now) st).relations = st.relations := by
  intro es
  induction es with
  | nil => intro st; rfl
  | cons e es ih =>
    intro st
    rw [List.foldl_cons, ih]
    rw [upsertEntity]
    split_ifs <;> rfl

/-! ## Claim C4 (corrected): the imports scan emits one relation per import
occurrence, not one per distinct module -/

/-- C4 counterexample: a file containing `import os` and `from os import path`
emits two `imports` relations with destination `os` from the same module, so
an imported module name can produce more than one imports relation. -/
theorem import_relations_duplicate_occurrence :
    import_relations "pkg.mod" twiceImported =
      [⟨"pkg.mod", "imports", "os"⟩, ⟨"pkg.mod", "imports", "os"⟩] ∧
    (import_relations "pkg.mod" twiceImported).count ⟨"pkg.mod", "imports", "os"⟩ = 2 := by
  exact ⟨rfl, by decide⟩

/-- C4 (amended): the Scanner emits one `imports` relation from the module id
per import occurrence — one per alias name of an `import x` statement and one
per `from x import y` statement with a module — always recording only the
module name, never the imported symbol; the same module name imported several
times yields several relations. -/
theorem import_relations_per_occurrence (mod_name : String)
    (stmts : List PyImportStmt) :
    import_relations mod_name stmts =
      (moduleRefs stmts).map (fun d => (⟨mod_name, "imports", d⟩ : RelIn)) ∧
    (∀ rel ∈ import_relations mod_name stmts,
      rel.src = mod_name ∧ rel.rel = "imports" ∧ rel.dst ∈ moduleRefs stmts) ∧
    (∀ d : String,
      (import_relations mod_name stmts).count ⟨mod_name, "imports", d⟩ =
        (moduleRefs stmts).count d) := by
  have h1 : import_relations mod_name stmts =
      (moduleRefs stmts).map (fun d => (⟨mod_name, "imports", d⟩ : RelIn)) := by
    induction stmts with
    | nil => rfl
    | cons s rest ih =>
      simp only [import_relations, moduleRefs] at ih ⊢
      rw [List.flatMap_cons, List.flatMap_cons, List.map_append, ← ih]
      cases s with
      | imp names => rfl
      | fromImp m names => cases m <;> rfl
  refine ⟨h1, ?_, ?_⟩
  · intro rel hrel
    rw [h1] at hrel
    obtain ⟨d, hd, rfl⟩ := List.mem_map.mp hrel
    exact ⟨rfl, rfl, hd⟩
  · intro d
    rw [h1]
    exact List.count_map_of_injective _ _
      (fun a b h => congrArg RelIn.dst h) d

/-- C4 witness: instance of the amended per-occurrence theorem. -/
theorem import_relations_per_occurrence_witness :
    (⟨"pkg.mod", "imports", "os"⟩ : RelIn) ∈ import_relations "pkg.mod" twiceImported ∧
    (⟨"pkg.mod", "imports", "os"⟩ : RelIn).src = "pkg.mod" ∧
    (⟨"pkg.mod", "imports", "os"⟩ : RelIn).rel = "imports" ∧
    (⟨"pkg.mod", "imports", "os"⟩ : RelIn).dst ∈ moduleRefs twiceImported := by
  have h := (import_relations_per_occurrence "pkg.mod" twiceImported).2.1
    ⟨"pkg.mod", "imports", "os"⟩ (by decide)
  exact ⟨by decide, h⟩

/-! ## Claim C5 (corrected): the signature string skips positional-only
parameters -/

/-- C5 counterexample: for `def f(a, /, b)` the code stores `f(b)` while the
claimed composition of all positional parameters yields `f(a, b)`. -/
theorem signature_posonly_dropped :
    py_signature posonlyFunc = "f(b)" ∧
    claimedSignature posonlyFunc = "f(a, b)" ∧
    py_signature posonlyFunc ≠ claimedSignature posonlyFunc := by
  exact ⟨rfl, rfl, by decide⟩

/-- C5 (amended): for every function-like declaration without positional-only
parameters, the stored signature equals `name(params...)` composed of the
positional parameters in declaration order, then the `*`-marker, the
keyword-only parameters, and the `**`-marker, joined by `", "`; declarations
with positional-only parameters have those parameters omitted. -/
theorem signature_composition (f : PyFunc) (h : f.fargs.posonlyargs = []) :
    py_signature f = claimedSignature f := by
  cases f with
  | mk name fargs =>
    cases fargs with
    | mk po args va kw kwa =>
      simp only at h
      subst h
      rfl

/-- C5 witness: instance of the amended composition theorem. -/
theorem signature_composition_witness :
    (⟨"g", ⟨[], ["x"], none, [], none⟩⟩ : PyFunc).fargs.posonlyargs = [] ∧
    py_signature ⟨"g", ⟨[], ["x"], none, [], none⟩⟩ =
      claimedSignature ⟨"g", ⟨[], ["x"], none, [], none⟩⟩ :=
  ⟨rfl, signature_composition ⟨"g", ⟨[], ["x"], none, [], none⟩⟩ rfl⟩

/-! ## Claim C6 (confirmed): writeSummary affects exactly one row and clears
the recorded error -/

/-- C6: writing a summary to an id matching zero rows or more than one row
yields a fatal error whatever the backend (rowcount RuntimeError, or — when
several rows match a backend the schema CHECK rejects — IntegrityError),
never a silent success; a write with backend `"ollama"` that touches any row
always fails on the schema CHECK (`'ollam'`/`'codex'` only), so a successful
write requires backend `"codex"`, updates exactly the matching row, sets
`summary_error` to NULL, and leaves every other row untouched. -/
theorem write_summary_affects_one_row (now : String) (table : List Row)
    (eid : Nat) (summary code_hash : String) (wt : Bool) (apx : Int)
    (cov backend : String) :
    ((table.filter (fun r => r.id == eid)).length ≠ 1 →
      ∃ msg, write_summary_cur now table eid summary code_hash wt apx cov backend =
        .error msg) ∧
    (backend = "ollama" → (table.filter (fun r => r.id == eid)).length ≠ 0 →
      ∃ msg, write_summary_cur now table eid summary code_hash wt apx cov backend =
        .error msg) ∧
    ((table.filter (fun r => r.id == eid)).length = 1 → backend = "codex" →
      ∃ t', write_summary_cur now table eid summary code_hash wt apx cov backend =
          .ok t' ∧
        (∀ r ∈ table, r.id = eid →
          ∃ r' ∈ t', r'.id = r.id ∧ r'.summary_error = none ∧
            r'.summary = summary ∧ r'.summary_hash = some code_hash ∧
            r'.summary_backend = some backend ∧ r'.updated_at = now) ∧
        (∀ r ∈ table, r.id ≠ eid → r ∈ t')) := by
  refine ⟨?_, ?_, ?_⟩
  · intro hn
    rw [write_summary_cur]
    by_cases hb : (!(backend == "ollama" || backend == "codex")) = true
    · rw [if_pos hb]
      exact ⟨_, rfl⟩
    · rw [if_neg hb]
      by_cases hck : ((table.filter (fun r => r.id == eid)).length != 0 &&
          !(backend == "ollam" || backend == "codex")) = true
      · rw [if_pos hck]
        exact ⟨_, rfl⟩
      · rw [if_neg hck, if_pos (by simpa using hn)]
        exact ⟨_, rfl⟩
  · intro hb hn
    subst hb
    rw [write_summary_cur, if_neg (by decide),
      if_pos (by simp only [Bool.and_eq_true]; exact ⟨by simpa using hn, by decide⟩)]
    exact ⟨_, rfl⟩
  · intro hn hb
    subst hb
    have hck : ((table.filter (fun r => r.id == eid)).length != 0 &&
        !(("codex" == "ollam") || ("codex" == "codex"))) = false := by
      simp
    rw [write_summary_cur, if_neg (by decide),
      if_neg (by rw [hck]; exact Bool.false_ne_true),
      if_neg (by simpa using hn)]
    refine ⟨_, rfl, ?_, ?_⟩
    · intro r hr hid
      refine ⟨summaryUpdate now eid summary code_hash wt apx cov "codex" r,
        List.mem_map_of_mem _ hr, ?_⟩
      have hb2 : (r.id == eid) = true := by simpa using hid
      rw [summaryUpdate, if_pos hb2]
      exact ⟨rfl, rfl, rfl, rfl, rfl, rfl⟩
    · intro r hr hid
      have hb2 : ¬((r.id == eid) = true) := by simpa using hid
      have hmem := List.mem_map_of_mem
        (summaryUpdate now eid summary code_hash wt apx cov "codex") hr
      rw [summaryUpdate, if_neg hb2] at hmem
      exact hmem

/-- C6 witness: a two-row table; writing to id 1 with backend codex succeeds
and clears the error, writing to a missing id fails on the rowcount, and
writing to a matching id with backend ollama fails on the schema CHECK. -/
theorem write_summary_affects_one_row_witness :
    (([mkRow 1 "class" "a.B" 1 2, mkRow 2 "method" "a.B.m" 3 4].filter
        (fun r => r.id == 1)).length = 1 ∧
      (∃ t', write_summary_cur "t2" [mkRow 1 "class" "a.B" 1 2, mkRow 2 "method" "a.B.m" 3 4]
          1 "sum" "ch" true 7 "full" "codex" = .ok t' ∧
        (∀ r ∈ [mkRow 1 "class" "a.B" 1 2, mkRow 2 "method" "a.B.m" 3 4], r.id = 1 →
          ∃ r' ∈ t', r'.id = r.id ∧ r'.summary_error = none ∧
            r'.summary = "sum" ∧ r'.summary_hash = some "ch" ∧
            r'.summary_backend = some "codex" ∧ r'.updated_at = "t2") ∧
        (∀ r ∈ [mkRow 1 "class" "a.B" 1 2, mkRow 2 "method" "a.B.m" 3 4], r.id ≠ 1 →
          r ∈ t'))) ∧
    (([mkRow 1 "class" "a.B" 1 2].filter (fun r => r.id == 9)).length ≠ 1 ∧
      ∃ msg, write_summary_cur "t2" [mkRow 1 "class" "a.B" 1 2] 9 "s" "c" false 0
        "full" "codex" = .error msg) ∧
    (([mkRow 1 "class" "a.B" 1 2].filter (fun r => r.id == 1)).length ≠ 0 ∧
      ∃ msg, write_summary_cur "t2" [mkRow 1 "class" "a.B" 1 2] 1 "s" "c" false 0
        "full" "ollama" = .error msg) := by
  refine ⟨⟨by decide, ?_⟩, ⟨by decide, ?_⟩, ⟨by decide, ?_⟩⟩
  · exact (write_summary_affects_one_row "t2"
      [mkRow 1 "class" "a.B" 1 2, mkRow 2 "method" "a.B.m" 3 4] 1 "sum" "ch" true 7
      "full" "codex").2.2 (by decide) rfl
  · exact (write_summary_affects_one_row "t2" [mkRow 1 "class" "a.B" 1 2] 9 "s" "c"
      false 0 "full" "codex").1 (by decide)
  · exact (write_summary_affects_one_row "t2" [mkRow 1 "class" "a.B" 1 2] 1 "s" "c"
      false 0 "full" "ollama").2.1 rfl (by decide)

/-! ## Claim C8 (confirmed): the FTS syntax-error retry -/

/-- C8: when the engine rejects the normalized query with an FTS5 syntax
error, `search` retries exactly once, with the original raw query escaped as a
literal phrase (after `str.strip`), and the retry's outcome — rows or error —
is final; any other engine failure propagates unchanged, and a successful
first call sends exactly one query. -/
theorem search_syntax_error_retry (eng : QueryEngine) (raw : String) (limit : Int) :
    (∀ rows, eng (normalize_fts_query raw) = .ok rows →
      search_fts eng raw = (.ok rows, [normalize_fts_query raw])) ∧
    (∀ msg, eng (normalize_fts_query raw) = .error msg →
      hasFtsSyntaxError msg = true →
      search_fts eng raw =
        (eng (fts_phrase (pyStrip raw)),
          [normalize_fts_query raw, fts_phrase (pyStrip raw)])) ∧
    (∀ msg, eng (normalize_fts_query raw) = .error msg →
      hasFtsSyntaxError msg = false →
      search_fts eng raw = (.error msg, [normalize_fts_query raw])) ∧
    (∀ msg, (search_fts eng raw).1 = .error msg →
      search eng raw limit = .error msg) ∧
    (∀ rows, (search_fts eng raw).1 = .ok rows →
      search eng raw limit = .ok (search_rerank raw limit rows)) := by
  refine ⟨?_, ?_, ?_, ?_, ?_⟩
  · intro rows h
    rw [search_fts, h]
  · intro msg h hs
    rw [search_fts, h]
    simp only [hs, if_true]
  · intro msg h hs
    rw [search_fts, h]
    simp only [hs, Bool.false_eq_true, if_false]
  · intro msg h
    rw [search, h]
  · intro rows h
    rw [search, h]

/-- C8 witness: a concrete engine that rejects the pass-through query `a -b`
with an FTS5 syntax error and accepts the literal-phrase retry, which is sent
exactly once. -/
theorem search_syntax_error_retry_witness :
    (fun q => if q == "a -b" then Except.error "fts5: syntax error near -"
      else Except.ok ([] : List FtsRow) : QueryEngine) (normalize_fts_query "a -b") =
        .error "fts5: syntax error near -" ∧
    hasFtsSyntaxError "fts5: syntax error near -" = true ∧
    search_fts (fun q => if q == "a -b" then Except.error "fts5: syntax error near -"
        else Except.ok ([] : List FtsRow)) "a -b" =
      (.ok [], ["a -b", "\"a -b\""]) := by
  have h := (search_syntax_error_retry
    (fun q => if q == "a -b" then Except.error "fts5: syntax error near -"
      else Except.ok ([] : List FtsRow)) "a -b" 10).2.1
    "fts5: syntax error near -" rfl (by decide)
  refine ⟨rfl, by decide, ?_⟩
  rw [h]
  rfl

/-! ## Claim C3 (confirmed): ingest upsert overwrites span metadata and
preserves summary fields -/

/-- C3: when an ingested index contains an entity conflicting on
`(kind, fqname)` with a stored row, `ingest_index` leaves the row's
`summary`, `summary_hash`, `code_truncated`, `summary_prompt_tokens`,
`summary_coverage`, `summary_backend` and `summary_error` unchanged while
overwriting `file`, `start_line`, `end_line`, `signature`, `docstring`,
`code_hash` and `updated_at` from the (last such) conflicting entity; the
relations table is fully replaced. -/
theorem ingest_preserves_summary_fields (now : String) (st : Store)
    (idx : IndexData) (r : Row) (e : EntityIn) (hr : r ∈ st.entities)
    (he : e ∈ idx.entities) (hk : sameKey e r = true) :
    (ingest_index now st idx).relations = idx.relations ∧
    ∃ e2 ∈ idx.entities, sameKey e2 r = true ∧
      conflictUpdate now e2 r ∈ (ingest_index now st idx).entities ∧
      (conflictUpdate now e2 r).summary = r.summary ∧
      (conflictUpdate now e2 r).summary_hash = r.summary_hash ∧
      (conflictUpdate now e2 r).code_truncated = r.code_truncated ∧
      (conflictUpdate now e2 r).summary_prompt_tokens = r.summary_prompt_tokens ∧
      (conflictUpdate now e2 r).summary_coverage = r.summary_coverage ∧
      (conflictUpdate now e2 r).summary_backend = r.summary_backend ∧
      (conflictUpdate now e2 r).summary_error = r.summary_error ∧
      (conflictUpdate now e2 r).id = r.id ∧
      (conflictUpdate now e2 r).kind = r.kind ∧
      (conflictUpdate now e2 r).fqname = r.fqname ∧
      (conflictUpdate now e2 r).file = e2.file ∧
      (conflictUpdate now e2 r).start_line = e2.start_line ∧
      (conflictUpdate now e2 r).end_line = e2.end_line ∧
      (conflictUpdate now e2 r).signature = e2.signature ∧
      (conflictUpdate now e2 r).docstring = e2.docstring ∧
      (conflictUpdate now e2 r).code_hash = e2.code_hash ∧
      (conflictUpdate now e2 r).updated_at = now := by
  constructor
  · rw [ingest_index]
    exact foldl_upsert_relations now _ _
  · have hmem : e ∈ idx.entities.filter (fun e2 => sameKey e2 r) :=
      List.mem_filter.mpr ⟨he, hk⟩
    have hne : idx.entities.filter (fun e2 => sameKey e2 r) ≠ [] :=
      List.ne_nil_of_mem hmem
    obtain ⟨eL, hL⟩ : ∃ eL,
        (idx.entities.filter (fun e2 => sameKey e2 r)).getLast? = some eL := by
      cases hfx : (idx.entities.filter (fun e2 => sameKey e2 r)).getLast? with
      | none => exact absurd (List.getLast?_eq_none_iff.mp hfx) hne
      | some x => exact ⟨x, rfl⟩
    have hLmem : eL ∈ idx.entities.filter (fun e2 => sameKey e2 r) :=
      List.mem_of_getLast?_eq_some hL
    obtain ⟨hLidx, hLkey⟩ := List.mem_filter.mp hLmem
    refine ⟨eL, hLidx, hLkey, ?_, rfl, rfl, rfl, rfl, rfl, rfl, rfl, rfl, rfl,
      rfl, rfl, rfl, rfl, rfl, rfl, rfl, rfl⟩
    rw [ingest_index]
    exact foldl_upsert_tracks now idx.entities
      { st with relations := idx.relations } r hr eL hL

/-- C3 witness: a concrete one-row store and a conflicting one-entity index. -/
theorem ingest_preserves_summary_fields_witness :
    mkRow 1 "class" "a.B" 1 2 ∈ storeW.entities ∧
    entW ∈ idxW.entities ∧
    sameKey entW (mkRow 1 "class" "a.B" 1 2) = true ∧
    (ingest_index "T" storeW idxW).relations = idxW.relations ∧
    ∃ e2 ∈ idxW.entities, sameKey e2 (mkRow 1 "class" "a.B" 1 2) = true ∧
      conflictUpdate "T" e2 (mkRow 1 "class" "a.B" 1 2) ∈
        (ingest_index "T" storeW idxW).entities := by
  have h := ingest_preserves_summary_fields "T" storeW idxW
    (mkRow 1 "class" "a.B" 1 2) entW (by decide) (by decide) (by decide)
  obtain ⟨e2, he2, hk2, hmem2, _⟩ := h.2
  exact ⟨by decide, by decide, by decide, h.1, e2, he2, hk2, hmem2⟩

/-! ## Claim C1 (corrected): lookup_symbol's three-tier UNION duplicates
entities across tiers -/

/-- C1 counterexample: on the specification's own fixture the two tail
matches come back a second time as substring matches — rows are de-duplicated
per `(row, rank)`, not per entity at its best tier. -/
theorem lookup_symbol_duplicates_across_tiers :
    ((lookup_symbol tierTable "fn" 25 none).map (fun p => (p.1.fqname, p.2))) =
      [("pkg.mod.fn", 1), ("pkg.sub.fn", 1), ("pkg.fnx", 2), ("pkg.mod.fn", 2),
        ("pkg.sub.fn", 2)] ∧
    ((lookup_symbol tierTable "fn" 25 none).map (fun p => p.1.fqname)).count
        "pkg.mod.fn" = 2 ∧
    ¬ ((lookup_symbol tierTable "fn" 25 none).map (fun p => p.1.fqname)).Nodup := by
  refine ⟨by decide, by decide, by decide⟩

/-- C1 (amended): `lookup_symbol` returns the union of the three tier SELECTs
— tier 0 exact BINARY equality, tier 1 `LIKE '%.name'`, tier 2
`LIKE '%name%'` (SQLite LIKE: ASCII case-insensitive, `%`/`_` in the name act
as wildcards), the kind allow-list applied per tier — with each matching
entity appearing once per tier it matches (not merely once at its best tier),
ordered by `(tier asc, kind asc, fqname asc)` and truncated by SQL LIMIT. -/
theorem lookup_symbol_tiered_union (table : List Row) (name : String)
    (kinds : Option (List String)) (limit : Int) :
    List.Sorted (relOfB lookupLt lookupKey) (lookup_symbol table name limit kinds) ∧
    (lookupRows table name kinds).Nodup ∧
    (∀ r t, (r, t) ∈ lookupRows table name kinds ↔
      (r ∈ table ∧ kindOk kinds r = true ∧ t ≤ 2 ∧ tierCond name t r = true)) ∧
    (∀ p ∈ lookup_symbol table name limit kinds, p ∈ lookupRows table name kinds) ∧
    (0 ≤ limit → (lookup_symbol table name limit kinds).length ≤ limit.toNat) ∧
    (limit < 0 →
      (lookup_symbol table name limit kinds).Perm (lookupRows table name kinds)) := by
  refine ⟨?_, nodup_dedupFirst _, ?_, ?_, ?_, ?_⟩
  · rw [lookup_symbol, sqliteLimit]
    split_ifs
    · exact sortBy_sorted isLinCmp_lookupLt _ _
    · exact sorted_take (sortBy_sorted isLinCmp_lookupLt _ _) _
  · intro r t
    rw [lookupRows, mem_dedupFirst]
    simp only [List.mem_append, List.mem_map, List.mem_filter, Bool.and_eq_true,
      Prod.mk.injEq]
    constructor
    · rintro ((⟨r', ⟨hr', hc, hk⟩, rfl, rfl⟩ | ⟨r', ⟨hr', hc, hk⟩, rfl, rfl⟩) |
        ⟨r', ⟨hr', hc, hk⟩, rfl, rfl⟩)
      · exact ⟨hr', hk, by omega, hc⟩
      · exact ⟨hr', hk, by omega, hc⟩
      · exact ⟨hr', hk, by omega, hc⟩
    · rintro ⟨hr, hk, ht, hc⟩
      match t, ht with
      | 0, _ => exact Or.inl (Or.inl ⟨r, ⟨hr, hc, hk⟩, rfl, rfl⟩)
      | 1, _ => exact Or.inl (Or.inr ⟨r, ⟨hr, hc, hk⟩, rfl, rfl⟩)
      | 2, _ => exact Or.inr ⟨r, ⟨hr, hc, hk⟩, rfl, rfl⟩
  · intro p hp
    rw [lookup_symbol, sqliteLimit] at hp
    split_ifs at hp
    · exact (mem_sortBy _ _).mp hp
    · exact (mem_sortBy _ _).mp (List.mem_of_mem_take hp)
  · intro hl
    rw [lookup_symbol, sqliteLimit, if_neg (by omega)]
    exact List.length_take_le _ _
  · intro hl
    rw [lookup_symbol, sqliteLimit, if_pos hl]
    exact sortBy_perm _ _ _

/-- C1 witness: instance of the amended theorem on the specification's
fixture. -/
theorem lookup_symbol_tiered_union_witness :
    ((mkRow 1 "function" "pkg.mod.fn" 1 2, 1) ∈ lookupRows tierTable "fn" none ↔
      (mkRow 1 "function" "pkg.mod.fn" 1 2 ∈ tierTable ∧
        kindOk none (mkRow 1 "function" "pkg.mod.fn" 1 2) = true ∧ 1 ≤ 2 ∧
        tierCond "fn" 1 (mkRow 1 "function" "pkg.mod.fn" 1 2) = true)) ∧
    (0 ≤ (25 : Int) → (lookup_symbol tierTable "fn" 25 none).length ≤
      (25 : Int).toNat) := by
  have h := lookup_symbol_tiered_union tierTable "fn" none 25
  exact ⟨h.2.2.1 _ 1, h.2.2.2.2.1⟩

/-! ## Claim C2 (confirmed): search re-ranks by boost, score, kind, fqname -/

/-- Characterization of `_fqname_boost` for nonempty inputs: 1000 on a
case-insensitive full match, 600 on a match of the last dotted segment, 250 on
a substring match, 0 otherwise. -/
theorem fqname_boost_cases (f q : String) (hq : pyLower (pyStrip q) ≠ "")
    (hf : pyLower (pyStrip f) ≠ "") :
    (fqname_boost f q = 1000 ↔ pyLower (pyStrip q) = pyLower (pyStrip f)) ∧
    (fqname_boost f q = 600 ↔ (pyLower (pyStrip q) ≠ pyLower (pyStrip f) ∧
      pyLower (pyStrip q) = lastSegment (pyLower (pyStrip f)))) ∧
    (fqname_boost f q = 250 ↔ (pyLower (pyStrip q) ≠ pyLower (pyStrip f) ∧
      pyLower (pyStrip q) ≠ lastSegment (pyLower (pyStrip f)) ∧
      containsSub (pyLower (pyStrip f)) (pyLower (pyStrip q)) = true)) ∧
    (fqname_boost f q = 0 ↔ (pyLower (pyStrip q) ≠ pyLower (pyStrip f) ∧
      pyLower (pyStrip q) ≠ lastSegment (pyLower (pyStrip f)) ∧
      containsSub (pyLower (pyStrip f)) (pyLower (pyStrip q)) = false)) := by
  have h0 : (pyLower (pyStrip q) == "" || pyLower (pyStrip f) == "") = false := by
    simp [hq, hf]
  simp only [fqname_boost, h0, Bool.false_eq_true, if_false]
  split_ifs with h1 h2 h3 <;> simp_all [beq_iff_eq]

/-- C2: `search` re-ranks the engine's candidate set by descending fqname
boost, then ascending text-relevance score, then kind, then fqname, and
truncates to `limit`; a strictly greater boost wins regardless of the other
key components, and on the ARC fixture the class `arc.main.ARC` (boost 600)
ranks strictly before the method `arc.main.ARC.execute` (boost 250) for every
pair of scores. -/
theorem search_rerank_by_boost (raw : String) (limit : Int) (rows : List FtsRow)
    (eng : QueryEngine) (s1 s2 : ℚ) :
    List.Sorted (relOfB searchLt (searchKey raw)) (search_rerank raw limit rows) ∧
    (∀ x ∈ search_rerank raw limit rows, x ∈ rows) ∧
    (0 ≤ limit → (search_rerank raw limit rows).length ≤ limit.toNat) ∧
    (∀ rows2, eng (normalize_fts_query raw) = .ok rows2 →
      search eng raw limit = .ok (search_rerank raw limit rows2)) ∧
    (∀ a b : FtsRow, fqname_boost b.e.fqname raw < fqname_boost a.e.fqname raw →
      searchLt (searchKey raw a) (searchKey raw b) = true) ∧
    (∀ f2 q2 : String, pyLower (pyStrip q2) ≠ "" → pyLower (pyStrip f2) ≠ "" →
      ((fqname_boost f2 q2 = 1000 ↔ pyLower (pyStrip q2) = pyLower (pyStrip f2)) ∧
       (fqname_boost f2 q2 = 600 ↔ (pyLower (pyStrip q2) ≠ pyLower (pyStrip f2) ∧
         pyLower (pyStrip q2) = lastSegment (pyLower (pyStrip f2)))) ∧
       (fqname_boost f2 q2 = 250 ↔ (pyLower (pyStrip q2) ≠ pyLower (pyStrip f2) ∧
         pyLower (pyStrip q2) ≠ lastSegment (pyLower (pyStrip f2)) ∧
         containsSub (pyLower (pyStrip f2)) (pyLower (pyStrip q2)) = true)) ∧
       (fqname_boost f2 q2 = 0 ↔ (pyLower (pyStrip q2) ≠ pyLower (pyStrip f2) ∧
         pyLower (pyStrip q2) ≠ lastSegment (pyLower (pyStrip f2)) ∧
         containsSub (pyLower (pyStrip f2)) (pyLower (pyStrip q2)) = false)))) ∧
    ((search_rerank "ARC" 10 [⟨execRow, s1⟩, ⟨arcRow, s2⟩]).map
        (fun x => x.e.fqname) = ["arc.main.ARC", "arc.main.ARC.execute"]) := by
  refine ⟨?_, ?_, ?_, ?_, ?_, fun f2 q2 hq hf => fqname_boost_cases f2 q2 hq hf, ?_⟩
  · rw [search_rerank, pySliceTo]
    split_ifs
    · exact sorted_take (sortBy_sorted isLinCmp_searchLt _ _) _
    · exact sorted_take (sortBy_sorted isLinCmp_searchLt _ _) _
  · intro x hx
    rw [search_rerank, pySliceTo] at hx
    split_ifs at hx
    · exact (mem_sortBy _ _).mp (List.mem_of_mem_take hx)
    · exact (mem_sortBy _ _).mp (List.mem_of_mem_take hx)
  · intro hl
    rw [search_rerank, pySliceTo, if_pos hl]
    exact List.length_take_le _ _
  · intro rows2 h
    simp only [search, search_fts, h]
  · intro a b h
    simp only [searchLt, lexLtB, searchKey, intLtB, Bool.or_eq_true,
      Bool.and_eq_true, decide_eq_true_eq]
    left
    omega
  · have hb1 : fqname_boost "arc.main.ARC" "ARC" = 600 := by decide
    have hb2 : fqname_boost "arc.main.ARC.execute" "ARC" = 250 := by decide
    have hk1 : searchKey "ARC" (⟨execRow, s1⟩ : FtsRow) =
        ((-250 : Int), s1, "method", "arc.main.ARC.execute") := by
      simp [searchKey, execRow, mkRow, hb2]
    have hk2 : searchKey "ARC" (⟨arcRow, s2⟩ : FtsRow) =
        ((-600 : Int), s2, "class", "arc.main.ARC") := by
      simp [searchKey, arcRow, mkRow, hb1]
    have hrel : ¬ relOfB searchLt (searchKey "ARC")
        (⟨execRow, s1⟩ : FtsRow) (⟨arcRow, s2⟩ : FtsRow) := by
      simp [relOfB, hk1, hk2, searchLt, lexLtB, intLtB, Prod.mk.injEq]
    simp only [search_rerank, sortBy, List.insertionSort, List.orderedInsert]
    rw [if_neg hrel]
    rfl

/-- C2 witness: instance of the re-rank theorem at concrete scores and a
concrete engine. -/
theorem search_rerank_by_boost_witness :
    ((search_rerank "ARC" 10 [⟨execRow, 3/2⟩, ⟨arcRow, 5/2⟩]).map
        (fun x => x.e.fqname) = ["arc.main.ARC", "arc.main.ARC.execute"]) ∧
    (0 ≤ (10 : Int) →
      (search_rerank "ARC" 10 [⟨execRow, 3/2⟩, ⟨arcRow, 5/2⟩]).length ≤
        (10 : Int).toNat) ∧
    search (fun _ => .ok [⟨execRow, 3/2⟩, ⟨arcRow, 5/2⟩]) "ARC" 10 =
      .ok (search_rerank "ARC" 10 [⟨execRow, 3/2⟩, ⟨arcRow, 5/2⟩]) := by
  have h := search_rerank_by_boost "ARC" 10 [⟨execRow, 3/2⟩, ⟨arcRow, 5/2⟩]
    (fun _ => .ok [⟨execRow, 3/2⟩, ⟨arcRow, 5/2⟩]) (3/2) (5/2)
  exact ⟨h.2.2.2.2.2.2, h.2.2.1, h.2.2.2.1 _ rfl⟩

/-! ## Claim C10 (corrected): the `max(1, limit)` clamp, and the 250-row
candidate pool of class_methods -/

theorem isLinCmp_cmLt : IsLinCmp (lexLtB natLtB (lexLtB intLtB strLtB)) :=
  isLinCmp_lexLtB isLinCmp_natLtB (isLinCmp_lexLtB isLinCmp_intLtB isLinCmp_strLtB)

theorem isLinCmp_mnLt :
    IsLinCmp (lexLtB natLtB (lexLtB intLtB (lexLtB intLtB strLtB))) :=
  isLinCmp_lexLtB isLinCmp_natLtB
    (isLinCmp_lexLtB isLinCmp_intLtB (isLinCmp_lexLtB isLinCmp_intLtB isLinCmp_strLtB))

theorem takeMax1_nonpos {limit : Int} (hl : limit ≤ 0) (l : List α) :
    takeMax1 limit l = l.take 1 := by
  rw [takeMax1, max_eq_left (by omega)]
  rfl

/-- C10 counterexample: an eligible direct method exists in the table, but
251 candidate rows fill the `LIMIT 250` fetch of `class_methods` with
nested-member rows, so a non-positive limit (here 0) still returns the empty
list. -/
theorem class_methods_empty_beyond_pool :
    directRow ∈ poolTable ∧
    directRow.kind = "method" ∧
    sqlLike "C.%" directRow.fqname = true ∧
    containsChar '.' (methodName "C" directRow.fqname) = false ∧
    class_methods poolTable "C" 0 = [] := by
  refine ⟨by decide, by decide, by decide, by decide, by decide⟩

/-- C10 (amended): with a non-positive limit, the truncation bound is clamped
to `max(1, limit)` = 1, so `class_methods` returns exactly the top-ranked
eligible entity whenever one exists **within its 250-row candidate fetch**,
and `module_neighbors` (whose fetch is uncapped) returns exactly the
top-ranked eligible entity whenever any eligible entity exists. -/
theorem clamp_nonpositive_limit (table : List Row) (cf file : String)
    (sl el : Int) (excl : Option Nat) (limit : Int) (hl : limit ≤ 0) :
    ((cmFetch table cf).filterMap (cmEntry cf) ≠ [] →
      ∃ p ∈ (cmFetch table cf).filterMap (cmEntry cf),
        class_methods table cf limit = [p.2] ∧
        ∀ q ∈ (cmFetch table cf).filterMap (cmEntry cf),
          relOfB (lexLtB natLtB (lexLtB intLtB strLtB)) Prod.fst p q) ∧
    ((mnFetch table file).filter (mnKeep excl) ≠ [] →
      ∃ r' ∈ (mnFetch table file).filter (mnKeep excl),
        module_neighbors table file sl el excl limit = [r'] ∧
        ∀ r2 ∈ (mnFetch table file).filter (mnKeep excl),
          relOfB (lexLtB natLtB (lexLtB intLtB (lexLtB intLtB strLtB)))
            (mnKey sl el) r' r2) := by
  constructor
  · intro hne
    obtain ⟨x, xs, hx⟩ : ∃ x xs,
        sortBy (lexLtB natLtB (lexLtB intLtB strLtB)) Prod.fst
          ((cmFetch table cf).filterMap (cmEntry cf)) = x :: xs := by
      cases hs : sortBy (lexLtB natLtB (lexLtB intLtB strLtB)) Prod.fst
          ((cmFetch table cf).filterMap (cmEntry cf)) with
      | nil =>
        exfalso
        have hp := sortBy_perm (lexLtB natLtB (lexLtB intLtB strLtB)) Prod.fst
          ((cmFetch table cf).filterMap (cmEntry cf))
        rw [hs] at hp
        exact hne hp.nil_eq.symm
      | cons a as => exact ⟨a, as, rfl⟩
    refine ⟨x, (mem_sortBy _ _).mp (hx ▸ List.mem_cons_self x xs), ?_,
      sortBy_head_min isLinCmp_cmLt Prod.fst hx⟩
    simp only [class_methods]
    rw [hx, takeMax1_nonpos hl]
    rfl
  · intro hne
    obtain ⟨x, xs, hx⟩ : ∃ x xs,
        sortBy (lexLtB natLtB (lexLtB intLtB (lexLtB intLtB strLtB)))
          (mnKey sl el) ((mnFetch table file).filter (mnKeep excl)) = x :: xs := by
      cases hs : sortBy (lexLtB natLtB (lexLtB intLtB (lexLtB intLtB strLtB)))
          (mnKey sl el) ((mnFetch table file).filter (mnKeep excl)) with
      | nil =>
        exfalso
        have hp := sortBy_perm (lexLtB natLtB (lexLtB intLtB (lexLtB intLtB strLtB)))
          (mnKey sl el) ((mnFetch table file).filter (mnKeep excl))
        rw [hs] at hp
        exact hne hp.nil_eq.symm
      | cons a as => exact ⟨a, as, rfl⟩
    refine ⟨x, (mem_sortBy _ _).mp (hx ▸ List.mem_cons_self x xs), ?_,
      sortBy_head_min isLinCmp_mnLt (mnKey sl el) hx⟩
    rw [module_neighbors, hx, takeMax1_nonpos hl]
    rfl

/-- C10 witness: instance of the clamp theorem with limit 0 on one-row
tables. -/
theorem clamp_nonpositive_limit_witness :
    (0 : Int) ≤ 0 ∧
    ((cmFetch [mkRow 1 "method" "C.a" 5 6] "C").filterMap (cmEntry "C") ≠ [] ∧
      ∃ p ∈ (cmFetch [mkRow 1 "method" "C.a" 5 6] "C").filterMap (cmEntry "C"),
        class_methods [mkRow 1 "method" "C.a" 5 6] "C" 0 = [p.2]) ∧
    ((mnFetch [mkRow 1 "class" "X" 1 2] "f.py").filter (mnKeep none) ≠ [] ∧
      ∃ r' ∈ (mnFetch [mkRow 1 "class" "X" 1 2] "f.py").filter (mnKeep none),
        module_neighbors [mkRow 1 "class" "X" 1 2] "f.py" 1 2 none 0 = [r']) := by
  have h := clamp_nonpositive_limit [mkRow 1 "method" "C.a" 5 6] "C" "f.py" 1 2
    none 0 (by omega)
  have h2 := clamp_nonpositive_limit [mkRow 1 "class" "X" 1 2] "C" "f.py" 1 2
    none 0 (by omega)
  obtain ⟨p, hp, hcm, _⟩ := h.1 (by decide)
  obtain ⟨r', hr', hmn, _⟩ := h2.2 (by decide)
  exact ⟨le_refl 0, ⟨by decide, p, hp, hcm⟩, ⟨by decide, r', hr', hmn⟩⟩

/-! ## Claim C9 (confirmed): normalize_resolve_query produces a
first-insertion-order de-duplicated candidate list -/

/-- C9: the candidate list equals the first-occurrence de-duplication of the
phase emissions (from-import rule, import rule, dotted tokens after
punctuation stripping, the trimmed raw query, and its final dotted segment
when the raw query has a dot — visible in `rawEmits`), each emission stripped
and empties dropped; the list is duplicate-free; empty input yields no
candidates; and for nonempty input the reported normalized query is the first
candidate. -/
theorem normalize_resolve_query_candidates (query : String) :
    (normalize_resolve_query query).raw_query = pyStrip query ∧
    (normalize_resolve_query query).candidates =
      dedupFirst (((rawEmits (pyStrip query)).map pyStrip).filter
        (fun v => !(v == ""))) ∧
    (normalize_resolve_query query).candidates.Nodup ∧
    (pyStrip query = "" → normalize_resolve_query query = ⟨"", "", []⟩) ∧
    (pyStrip query ≠ "" →
      ∃ c0 cs, (normalize_resolve_query query).candidates = c0 :: cs ∧
        (normalize_resolve_query query).normalized_query = c0) := by
  by_cases h0 : pyStrip query = ""
  · have hn : normalize_resolve_query query = ⟨"", "", []⟩ := by
      rw [normalize_resolve_query, h0]
      rfl
    rw [hn, h0]
    exact ⟨rfl, by decide, List.nodup_nil, fun _ => rfl, fun hne => absurd rfl hne⟩
  · have hne' : (pyStrip query == "") = false := by simpa using h0
    have hc : (normalize_resolve_query query).candidates =
        dedupFirst (((rawEmits (pyStrip query)).map pyStrip).filter
          (fun v => !(v == ""))) := by
      simp only [normalize_resolve_query, hne', Bool.false_eq_true, if_false]
      rw [foldl_addCand]
      rfl
    have hnq : (normalize_resolve_query query).normalized_query =
        (normalize_resolve_query query).candidates.headD (pyStrip query) := by
      simp only [normalize_resolve_query, hne', Bool.false_eq_true, if_false]
    have hraw : (normalize_resolve_query query).raw_query = pyStrip query := by
      simp only [normalize_resolve_query, hne', Bool.false_eq_true, if_false]
    refine ⟨hraw, hc, ?_, fun h => absurd h h0, fun _ => ?_⟩
    · rw [hc]
      exact nodup_dedupFirst _
    · have hmemraw : pyStrip query ∈
          ((rawEmits (pyStrip query)).map pyStrip).filter (fun v => !(v == "")) := by
        refine List.mem_filter.mpr ⟨?_, by simpa using h0⟩
        refine List.mem_map.mpr ⟨pyStrip query, ?_, pyStrip_idem query⟩
        simp [rawEmits]
      have hmem : pyStrip query ∈ (normalize_resolve_query query).candidates := by
        rw [hc]
        exact mem_dedupFirst.mpr hmemraw
      cases hcs : (normalize_resolve_query query).candidates with
      | nil => rw [hcs] at hmem; simp at hmem
      | cons c0 cs =>
        refine ⟨c0, cs, rfl, ?_⟩
        rw [hnq, hcs]
        rfl

/-- C9 witness: instance on the fixture query `from pkg.mod import C`,
checking the candidate list, its order, and the reported normalized query. -/
theorem normalize_resolve_query_candidates_witness :
    pyStrip "from pkg.mod import C" ≠ "" ∧
    (∃ c0 cs,
      (normalize_resolve_query "from pkg.mod import C").candidates = c0 :: cs ∧
      (normalize_resolve_query "from pkg.mod import C").normalized_query = c0) ∧
    (normalize_resolve_query "from pkg.mod import C").candidates =
      ["C", "pkg.mod.C", "pkg.mod", "mod", "pkg", "from pkg.mod import C",
        "mod import C"] ∧
    (normalize_resolve_query "from pkg.mod import C").candidates.Nodup := by
  have h := normalize_resolve_query_candidates "from pkg.mod import C"
  exact ⟨by decide, h.2.2.2.2 (by decide), by decide, h.2.2.1⟩

/-! ## Claim C7 (confirmed): recall@k and hit@k -/

theorem nodup_eligibleList (dbKind : String → Option String)
    (kinds : Option (List String)) (item : QrelsItem) :
    (eligibleList dbKind kinds item).Nodup := by
  rw [eligibleList]
  split_ifs
  · exact List.Nodup.filter _
      ((sortBy_perm strLtB id (relevantSet item)).nodup_iff.mpr
        (nodup_dedupFirst _))
  · exact (sortBy_perm strLtB id (relevantSet item)).nodup_iff.mpr
      (nodup_dedupFirst _)

theorem length_filter_card {l : List String} (hl : l.Nodup) (p : String → Bool) :
    (l.filter p).length = (l.toFinset.filter (fun x => p x = true)).card := by
  rw [← List.toFinset_card_of_nodup (hl.filter p), List.toFinset_filter]

theorem filter_contains_inter (E : Finset String) (returned : List String) :
    E.filter (fun x => returned.contains x = true) = E ∩ returned.toFinset := by
  ext x
  simp [List.contains, List.elem_iff, Finset.mem_filter, Finset.mem_inter,
    List.mem_toFinset]

theorem matched_length (dbKind : String → Option String)
    (retrieve : String → List String) (k : Int) (kinds : Option (List String))
    (item : QrelsItem) :
    (sortBy strLtB id ((eligibleList dbKind kinds item).filter
      (fun fq => (pySliceTo k (retrieve item.query)).contains fq))).length =
    ((eligibleList dbKind kinds item).toFinset ∩
      (pySliceTo k (retrieve item.query)).toFinset).card := by
  rw [length_sortBy,
    length_filter_card (nodup_eligibleList dbKind kinds item),
    filter_contains_inter]

theorem evalQuery_spec (dbKind : String → Option String)
    (retrieve : String → List String) (k : Int) (kinds : Option (List String))
    (item : QrelsItem) :
    (evalQuery dbKind retrieve k kinds item).recall_at_k =
      recallSpec (eligibleList dbKind kinds item).toFinset
        (pySliceTo k (retrieve item.query)).toFinset ∧
    (evalQuery dbKind retrieve k kinds item).hit_at_k =
      hitSpec (eligibleList dbKind kinds item).toFinset
        (pySliceTo k (retrieve item.query)).toFinset ∧
    ((evalQuery dbKind retrieve k kinds item).hit_at_k = 1 ↔
      ((eligibleList dbKind kinds item).toFinset ∩
        (pySliceTo k (retrieve item.query)).toFinset).Nonempty) ∧
    (evalQuery dbKind retrieve k kinds item).matched_count =
      ((eligibleList dbKind kinds item).toFinset ∩
        (pySliceTo k (retrieve item.query)).toFinset).card ∧
    (evalQuery dbKind retrieve k kinds item).eligible_relevant_count =
      (eligibleList dbKind kinds item).toFinset.card := by
  have hnd := nodup_eligibleList dbKind kinds item
  have hmc := matched_length dbKind retrieve k kinds item
  have hec : (eligibleList dbKind kinds item).length =
      (eligibleList dbKind kinds item).toFinset.card :=
    (List.toFinset_card_of_nodup hnd).symm
  have hiff : (sortBy strLtB id ((eligibleList dbKind kinds item).filter
      (fun fq => (pySliceTo k (retrieve item.query)).contains fq))).isEmpty = true ↔
      ((eligibleList dbKind kinds item).toFinset ∩
        (pySliceTo k (retrieve item.query)).toFinset).card = 0 := by
    rw [List.isEmpty_iff, ← List.length_eq_zero, hmc]
  refine ⟨?_, ?_, ?_, ?_, ?_⟩
  · simp only [evalQuery]
    rw [recallSpec, ← hec, ← hmc]
  · simp only [evalQuery]
    rw [hitSpec]
    by_cases h1 : (sortBy strLtB id ((eligibleList dbKind kinds item).filter
        (fun fq => (pySliceTo k (retrieve item.query)).contains fq))).isEmpty = true
    · rw [if_pos h1, if_pos (hiff.mp h1)]
    · rw [if_neg h1, if_neg (fun hc => h1 (hiff.mpr hc))]
  · simp only [evalQuery]
    by_cases h1 : (sortBy strLtB id ((eligibleList dbKind kinds item).filter
        (fun fq => (pySliceTo k (retrieve item.query)).contains fq))).isEmpty = true
    · rw [if_pos h1]
      constructor
      · intro h01
        exact absurd h01 (by norm_num)
      · intro hne
        exact absurd (Finset.card_eq_zero.mp (hiff.mp h1))
          (Finset.nonempty_iff_ne_empty.mp hne)
    · rw [if_neg h1]
      refine ⟨fun _ => ?_, fun _ => rfl⟩
      have hpos : ((eligibleList dbKind kinds item).toFinset ∩
          (pySliceTo k (retrieve item.query)).toFinset).card ≠ 0 :=
        fun hc => h1 (hiff.mpr hc)
      exact Finset.card_pos.mp (Nat.pos_of_ne_zero hpos)
  · simp only [evalQuery]
    exact hmc
  · simp only [evalQuery]
    exact hec

/-- C7: for k > 0, `evaluate_recall_at_k` computes per query
recall@k = |eligible ∩ returned-top-k| / |eligible| (0 when no eligible
targets) and hit@k = 1 exactly when that intersection is non-empty, and
aggregates both as simple means over the queries (0 when there are none); in
particular with relevant = {A, B} and only A returned, recall@1 = 1/2 and
hit@1 = 1. -/
theorem evaluate_recall_metrics (dbKind : String → Option String)
    (retrieve : String → List String) (k : Int) (kinds : Option (List String))
    (qrels : List QrelsItem) (hk : 0 < k) :
    ∃ out, evaluate_recall_at_k dbKind retrieve k kinds qrels = .ok out ∧
      out.num_queries = qrels.length ∧
      out.details = qrels.map (evalQuery dbKind retrieve k kinds) ∧
      (∀ item : QrelsItem,
        (evalQuery dbKind retrieve k kinds item).recall_at_k =
          recallSpec (eligibleList dbKind kinds item).toFinset
            (pySliceTo k (retrieve item.query)).toFinset ∧
        (evalQuery dbKind retrieve k kinds item).hit_at_k =
          hitSpec (eligibleList dbKind kinds item).toFinset
            (pySliceTo k (retrieve item.query)).toFinset ∧
        ((evalQuery dbKind retrieve k kinds item).hit_at_k = 1 ↔
          ((eligibleList dbKind kinds item).toFinset ∩
            (pySliceTo k (retrieve item.query)).toFinset).Nonempty) ∧
        (evalQuery dbKind retrieve k kinds item).matched_count =
          ((eligibleList dbKind kinds item).toFinset ∩
            (pySliceTo k (retrieve item.query)).toFinset).card ∧
        (evalQuery dbKind retrieve k kinds item).eligible_relevant_count =
          (eligibleList dbKind kinds item).toFinset.card) ∧
      out.recall_at_k = (if qrels.length = 0 then 0 else
        (out.details.map EvalDetail.recall_at_k).sum / (qrels.length : ℚ)) ∧
      out.hit_rate_at_k = (if qrels.length = 0 then 0 else
        (out.details.map EvalDetail.hit_at_k).sum / (qrels.length : ℚ)) ∧
      (∃ outEx, evaluate_recall_at_k (fun _ => some "class") (fun _ => ["A"]) 1
          none [⟨"q", ["A", "B"], []⟩] = .ok outEx ∧
        outEx.recall_at_k = 1/2 ∧ outEx.hit_rate_at_k = 1) := by
  rw [evaluate_recall_at_k, if_neg (by omega)]
  refine ⟨_, rfl, ?_, rfl, fun item => evalQuery_spec dbKind retrieve k kinds item,
    ?_, ?_, ?_⟩
  · simp [List.length_map]
  · simp [List.length_map]
  · simp [List.length_map]
  · have hspec := evalQuery_spec (fun _ => some "class") (fun _ => ["A"]) 1 none
      ⟨"q", ["A", "B"], []⟩
    have hE : (eligibleList (fun _ => some "class") none
        (⟨"q", ["A", "B"], []⟩ : QrelsItem)).toFinset.card = 2 := by decide
    have hI : ((eligibleList (fun _ => some "class") none
          (⟨"q", ["A", "B"], []⟩ : QrelsItem)).toFinset ∩
        (pySliceTo 1 ((fun _ => ["A"])
          (⟨"q", ["A", "B"], []⟩ : QrelsItem).query)).toFinset).card = 1 := by
      decide
    have ha : (evalQuery (fun _ => some "class") (fun _ => ["A"]) 1 none
        ⟨"q", ["A", "B"], []⟩).recall_at_k = 1/2 := by
      rw [hspec.1, recallSpec, hE, hI]
      norm_num
    have hb : (evalQuery (fun _ => some "class") (fun _ => ["A"]) 1 none
        ⟨"q", ["A", "B"], []⟩).hit_at_k = 1 := by
      rw [hspec.2.1, hitSpec, hI]
      norm_num
    rw [evaluate_recall_at_k, if_neg (by omega)]
    refine ⟨_, rfl, ?_, ?_⟩
    · simp only [List.map_cons, List.map_nil, List.length_cons, List.length_nil,
        List.sum_cons, List.sum_nil, ha]
      norm_num
    · simp only [List.map_cons, List.map_nil, List.length_cons, List.length_nil,
        List.sum_cons, List.sum_nil, hb]
      norm_num

/-- C7 witness: the partial-recall example — relevant {A, B}, only A returned
in the top 1 — through the metrics theorem. -/
theorem evaluate_recall_metrics_witness :
    (0 : Int) < 1 ∧
    ∃ out, evaluate_recall_at_k (fun _ => some "class") (fun _ => ["A"]) 1 none
        [⟨"q", ["A", "B"], []⟩] = .ok out ∧
      out.recall_at_k = 1/2 ∧ out.hit_rate_at_k = 1 := by
  obtain ⟨out, hout, hrest⟩ := evaluate_recall_metrics (fun _ => some "class")
    (fun _ => ["A"]) 1 none [⟨"q", ["A", "B"], []⟩] (by omega)
  exact ⟨by omega, hrest.2.2.2.2.2⟩

end Context6
